import Mathlib

/-!
A shallow embedding of the word engine of the Zyzzyva word-study program
(src/src/libzyzzyva/WordEngine.cpp), together with proofs about the
claims of the specification.  Strings are modelled as lists of UTF-16
code units (natural numbers); the SQLite attribute database is modelled
as a list of rows, and the generated SQL WHERE clauses are modelled by
their evaluation semantics on a row.  External collaborator classes that
are not part of the sources (WordGraph search, LetterBag combination
counts, SearchSpec optimization) are modelled from the specification or
taken as parameters, as documented on each definition.
-/

namespace Zyzzyva

/-- Strings (words, query strings, SQL fragments): lists of UTF-16 code units. -/
abbrev Word := List Nat

/-- Upper-case a single ASCII code unit, as QChar::toUpper does on ASCII. -/
def toUpperCU (u : Nat) : Nat :=
  if 97 ≤ u ∧ u ≤ 122 then u - 32 else u

/-- Upper-case a word, as QString::toUpper does (restricted to ASCII). -/
def toUpperW (w : Word) : Word := w.map toUpperCU

/-- Code unit is an upper-case ASCII letter (A-Z). -/
def isUpperAlpha (u : Nat) : Prop := 65 ≤ u ∧ u ≤ 90

instance (u : Nat) : Decidable (isUpperAlpha u) := by
  unfold isUpperAlpha; infer_instance

/-- Strict lexicographic comparison of code-unit strings, as QString
operator< compares UTF-16 code units. -/
def lexLt : Word → Word → Bool
  | [], [] => false
  | [], _ :: _ => true
  | _ :: _, [] => false
  | a :: as, b :: bs => a < b || (a = b && lexLt as bs)

/-- Insert a code unit into an ascending list (helper for sorting). -/
def insNat (a : Nat) : List Nat → List Nat
  | [] => [a]
  | b :: bs => if a ≤ b then a :: b :: bs else b :: insNat a bs

/-- Sort code units ascending (insertion sort). -/
def sortNat (l : List Nat) : List Nat := l.foldr insNat []

/-- Modelled from the spec: Auxil::getAlphagram (Auxil.cpp is not in src).
The glossary defines an alphagram as a word's letters sorted into a
canonical (ascending) order. -/
def getAlphagram (w : Word) : Word := sortNat w

/-- Modelled from the spec: Auxil::getNumVowels (Auxil.cpp is not in src).
The number of vowels (A, E, I, O, U) in a word, computable directly from
the word without a database backend. -/
def auxNumVowels (w : Word) : Nat :=
  (w.filter (fun u => u = 65 ∨ u = 69 ∨ u = 73 ∨ u = 79 ∨ u = 85)).length

/-- Modelled from the spec: Auxil::getNumUniqueLetters (Auxil.cpp is not
in src).  The number of distinct letters in a word. -/
def auxNumUniqueLetters (w : Word) : Nat := w.dedup.length

/-- Association-list lookup (models QMap lookup; key order is irrelevant
to every property proved here). -/
def assocLookup {α β : Type} [DecidableEq α] (m : List (α × β)) (k : α) : Option β :=
  match m with
  | [] => none
  | (k', v) :: rest => if k' = k then some v else assocLookup rest k

/-- Association-list insert-or-replace (models QMap::insert / operator[]
assignment). -/
def assocInsert {α β : Type} [DecidableEq α] (m : List (α × β)) (k : α) (v : β) :
    List (α × β) :=
  match m with
  | [] => [(k, v)]
  | (k', v') :: rest =>
    if k' = k then (k, v) :: rest else (k', v') :: assocInsert rest k v

/-- Split a string at space characters, keeping empty parts, as
QString::split(QChar(' ')) does. -/
def splitW : Word → List Word
  | [] => [[]]
  | c :: rest =>
    let r := splitW rest
    if c = 32 then [] :: r
    else
      match r with
      | [] => [[c]]
      | h :: t => (c :: h) :: t

/-- Whitespace code units recognized by QString::simplified. -/
def isSpaceCU (u : Nat) : Bool :=
  u = 32 || u = 9 || u = 10 || u = 11 || u = 12 || u = 13

/-- Tokenize a line at whitespace, dropping empty tokens.  A line's
QString::simplified form is these tokens joined by single spaces, and
line.section(' ', 0, 0) of the simplified line is the first token. -/
def tokenize : Word → List Word
  | [] => []
  | c :: rest =>
    if isSpaceCU c then tokenize rest
    else
      match tokenize rest with
      | [] => [[c]]
      | h :: t =>
        match rest with
        | [] => [[c]]
        | d :: _ => if isSpaceCU d then [c] :: h :: t else (c :: h) :: t

/-- Helper for the any-run wildcard of LIKE: try the rest-pattern matcher
on every suffix of the word. -/
def likeMatchStar (f : Word → Bool) : Word → Bool
  | [] => f []
  | c :: w' => f (c :: w') || likeMatchStar f w'

/-- SQL LIKE matching as SQLite evaluates it: the code unit 37 is the
any-run wildcard, 95 is the any-character wildcard, and ordinary
characters compare ASCII-case-insensitively (SQLite's default LIKE). -/
def likeMatch : Word → Word → Bool
  | [], w => w.isEmpty
  | p :: ps, w =>
    if p = 37 then likeMatchStar (likeMatch ps) w
    else
      match w with
      | [] => false
      | c :: w' =>
        (if p = 95 then true else toUpperCU p = toUpperCU c) && likeMatch ps w'

/-- Search condition kinds (SearchCondition::SearchType).  PrefixCond and
SuffixCond stand for the source's front/back extension conditions;
OtherCondition stands for the remaining kinds that reach the default
branch of getConditionPhase. -/
inductive ConditionType
  | PatternMatch | AnagramMatch | SubanagramMatch | ConsistOf
  | Length | InWordList | NumVowels | IncludeLetters | ProbabilityOrder
  | LimitByProbabilityOrder | NumUniqueLetters | PointValue | NumAnagrams
  | PrefixCond | SuffixCond | BelongToGroup | OtherCondition
  deriving DecidableEq

/-- SearchCondition: a discriminant, a string payload, a numeric min/max
pair, a boolean payload, a legacy flag and a negation flag. -/
structure SearchCondition where
  type : ConditionType := ConditionType.OtherCondition
  stringValue : Word := []
  minValue : Int := 0
  maxValue : Int := 0
  boolValue : Bool := false
  legacy : Bool := false
  negated : Bool := false
  deriving DecidableEq

/-- SearchSpec: a conjunction flag plus an ordered list of conditions. -/
structure SearchSpec where
  conjunction : Bool := true
  conditions : List SearchCondition := []

/-- Modelled from the spec: SearchSpec::optimize (SearchSpec.cpp is not in
src).  The spec says the planner rewrites and adds predicates to narrow
earlier phases and speaks of an implicit Length condition that exists
solely to bound an expensive graph-phase search; the comment at
WordEngine.cpp lines 678-679 confirms that SearchSpec::optimize is what
adds those Length conditions.  Modelled minimally: an AnagramMatch
condition over a string without the any-run wildcard (42) or a character
class (91) fixes the word length to the string's length, so one implicit
Length condition with that exact bound is appended for each such
condition; other conditions add nothing. -/
def SearchSpec.optimize (s : SearchSpec) : SearchSpec :=
  { s with
    conditions := s.conditions ++
      ((s.conditions.filter fun c =>
          c.type = ConditionType.AnagramMatch ∧
          ¬ 42 ∈ c.stringValue ∧ ¬ 91 ∈ c.stringValue).map
        fun c =>
          { type := ConditionType.Length,
            minValue := (c.stringValue.length : Int),
            maxValue := (c.stringValue.length : Int) }) }

/-- Game-specific search sets (SearchSet). -/
inductive SearchSet
  | UnknownSearchSet | SetHookWords | SetFrontHooks | SetBackHooks
  | SetHighFives | SetTypeOneSevens | SetTypeOneEights
  | SetTypeTwoSevens | SetTypeTwoEights | SetTypeThreeSevens
  | SetTypeThreeEights | SetEightsFromSevenLetterStems
  deriving DecidableEq

/-- Name of the hook-words set, as code units (spells HOOK WORDS). -/
def hookWordsName : Word := [72, 79, 79, 75, 32, 87, 79, 82, 68, 83]

/-- Name of the front-hooks set, as code units (spells FRONT HOOKS). -/
def frontHooksName : Word := [70, 82, 79, 78, 84, 32, 72, 79, 79, 75, 83]

/-- Name of the back-hooks set, as code units (spells BACK HOOKS). -/
def backHooksName : Word := [66, 65, 67, 75, 32, 72, 79, 79, 75, 83]

/-- Name of the high-fives set, as code units (spells HIGH FIVES). -/
def highFivesName : Word := [72, 73, 71, 72, 32, 70, 73, 86, 69, 83]

/-- Name of the Type-One sevens set, as code units (spells TYPE1 7S). -/
def typeOneSevensName : Word := [84, 89, 80, 69, 49, 32, 55, 83]

/-- Name of the Type-One eights set, as code units (spells TYPE1 8S). -/
def typeOneEightsName : Word := [84, 89, 80, 69, 49, 32, 56, 83]

/-- Name of the Type-Two sevens set, as code units (spells TYPE2 7S). -/
def typeTwoSevensName : Word := [84, 89, 80, 69, 50, 32, 55, 83]

/-- Name of the Type-Two eights set, as code units (spells TYPE2 8S). -/
def typeTwoEightsName : Word := [84, 89, 80, 69, 50, 32, 56, 83]

/-- Name of the Type-Three sevens set, as code units (spells TYPE3 7S). -/
def typeThreeSevensName : Word := [84, 89, 80, 69, 51, 32, 55, 83]

/-- Name of the Type-Three eights set, as code units (spells TYPE3 8S). -/
def typeThreeEightsName : Word := [84, 89, 80, 69, 51, 32, 56, 83]

/-- Name of the eights-from-seven-letter-stems set (spells EIGHTS FROM 7 STEMS). -/
def eightsFromSevenName : Word :=
  [69, 73, 71, 72, 84, 83, 32, 70, 82, 79, 77, 32, 55, 32, 83, 84, 69, 77, 83]

/-- Modelled from the spec: Auxil::stringToSearchSet (Auxil.cpp is not in
src).  Maps a set-name string to the set discriminant; unrecognized names
map to UnknownSearchSet.  The exact name strings do not matter for any
claim; fixed ASCII names are used. -/
def stringToSearchSet (s : Word) : SearchSet :=
  if s = hookWordsName then SearchSet.SetHookWords
  else if s = frontHooksName then SearchSet.SetFrontHooks
  else if s = backHooksName then SearchSet.SetBackHooks
  else if s = highFivesName then SearchSet.SetHighFives
  else if s = typeOneSevensName then SearchSet.SetTypeOneSevens
  else if s = typeOneEightsName then SearchSet.SetTypeOneEights
  else if s = typeTwoSevensName then SearchSet.SetTypeTwoSevens
  else if s = typeTwoEightsName then SearchSet.SetTypeTwoEights
  else if s = typeThreeSevensName then SearchSet.SetTypeThreeSevens
  else if s = typeThreeEightsName then SearchSet.SetTypeThreeEights
  else if s = eightsFromSevenName then SearchSet.SetEightsFromSevenLetterStems
  else SearchSet.UnknownSearchSet

/-- Execution phases of a search condition (WordEngine::ConditionPhase). -/
inductive ConditionPhase
  | UnknownPhase | WordGraphPhase | DatabasePhase | PostConditionPhase
  deriving DecidableEq

/-- WordEngine::getConditionPhase: the search phase during which a search
condition is considered (WordEngine.cpp lines 1701-1750). -/
def getConditionPhase (c : SearchCondition) : ConditionPhase :=
  match c.type with
  | ConditionType.AnagramMatch => ConditionPhase.WordGraphPhase
  | ConditionType.SubanagramMatch => ConditionPhase.WordGraphPhase
  | ConditionType.ConsistOf => ConditionPhase.WordGraphPhase
  | ConditionType.Length => ConditionPhase.DatabasePhase
  | ConditionType.InWordList => ConditionPhase.DatabasePhase
  | ConditionType.NumVowels => ConditionPhase.DatabasePhase
  | ConditionType.IncludeLetters => ConditionPhase.DatabasePhase
  | ConditionType.ProbabilityOrder => ConditionPhase.DatabasePhase
  | ConditionType.NumUniqueLetters => ConditionPhase.DatabasePhase
  | ConditionType.PointValue => ConditionPhase.DatabasePhase
  | ConditionType.NumAnagrams => ConditionPhase.DatabasePhase
  | ConditionType.PrefixCond => ConditionPhase.PostConditionPhase
  | ConditionType.SuffixCond => ConditionPhase.PostConditionPhase
  | ConditionType.LimitByProbabilityOrder => ConditionPhase.PostConditionPhase
  | ConditionType.PatternMatch =>
    if c.stringValue.headD 0 = 42 ∧ c.stringValue.getLastD 0 = 42 ∧
       ¬ (91 ∈ c.stringValue)
    then ConditionPhase.DatabasePhase
    else ConditionPhase.WordGraphPhase
  | ConditionType.BelongToGroup =>
    match stringToSearchSet c.stringValue with
    | SearchSet.SetHookWords => ConditionPhase.DatabasePhase
    | SearchSet.SetFrontHooks => ConditionPhase.DatabasePhase
    | SearchSet.SetBackHooks => ConditionPhase.DatabasePhase
    | _ => ConditionPhase.PostConditionPhase
  | ConditionType.OtherCondition => ConditionPhase.UnknownPhase

/-- One row of the per-lexicon attribute database table (the words table
created during database creation; one row per word with precomputed
attributes). -/
structure DbRow where
  word : Word := []
  wordLength : Int := 0
  probabilityOrder : Int := 0
  minProbabilityOrder : Int := 0
  maxProbabilityOrder : Int := 0
  numVowels : Int := 0
  numUniqueLetters : Int := 0
  numAnagrams : Int := 0
  pointValue : Int := 0
  frontHooks : Word := []
  backHooks : Word := []
  isFrontHook : Bool := false
  isBackHook : Bool := false
  lexiconSymbols : Word := []
  definition : Word := []
  deriving DecidableEq

/-- Translate a PatternMatch string to a SQL LIKE pattern: the code
replaces the any-letter wildcard (63) by 95 and the any-run wildcard (42)
by 37 (WordEngine.cpp lines 314-319). -/
def patternToLike (s : Word) : Word :=
  s.map (fun u => if u = 63 then 95 else if u = 42 then 37 else u)

/-- Evaluate the SQL range fragment generated for numeric conditions:
equality when min = max, inclusive range otherwise (WordEngine.cpp lines
363-371). -/
def intRangeFilter (v lo hi : Int) : Bool :=
  if lo = hi then v = lo else lo ≤ v ∧ v ≤ hi

/-- Distinct letters of the query string with their multiplicities, in
ascending letter order, as the QMap built in the IncludeLetters branch
iterates them (WordEngine.cpp lines 376-383). -/
def letterCounts (s : Word) : List (Nat × Nat) :=
  (sortNat s.dedup).map (fun c => (c, s.count c))

/-- The LIKE pattern generated for one letter of an IncludeLetters
condition: a 37 wildcard followed by cnt repetitions of the letter each
followed by 37 (WordEngine.cpp lines 391-396). -/
def includeLikePattern (c : Nat) (cnt : Nat) : Word :=
  37 :: (List.replicate cnt [c, 37]).flatten

/-- Evaluation of the SQL fragment generated for an IncludeLetters
condition: for each distinct letter a LIKE (or NOT LIKE, when negated)
test, with the repetition count 1 when negated and the letter's
multiplicity otherwise, all conjoined (WordEngine.cpp lines 375-399). -/
def includeLettersFilter (s : Word) (negated : Bool) (w : Word) : Bool :=
  (letterCounts s).all fun p =>
    let cnt := if negated then 1 else p.2
    let res := likeMatch (includeLikePattern p.1 cnt) w
    if negated then !res else res

/-- Evaluation of the SQL fragment generated for a hook-set BelongToGroup
condition (WordEngine.cpp lines 401-425).  Non-hook sets generate no
fragment and never reach the database phase. -/
def hookGroupFilter (ss : SearchSet) (negated : Bool) (row : DbRow) : Bool :=
  match ss with
  | SearchSet.SetFrontHooks => row.isFrontHook = !negated
  | SearchSet.SetBackHooks => row.isBackHook = !negated
  | SearchSet.SetHookWords =>
    if negated then !row.isFrontHook && !row.isBackHook
    else row.isFrontHook || row.isBackHook
  | _ => true

/-- Evaluation, on one table row, of the SQL WHERE fragment that
WordEngine::databaseSearch generates for one database-phase condition
(WordEngine.cpp lines 313-448).  Negation is honored only where the code
honors it (IncludeLetters, BelongToGroup, InWordList). -/
def condFilter (cond : SearchCondition) (row : DbRow) : Bool :=
  match cond.type with
  | ConditionType.PatternMatch => likeMatch (patternToLike cond.stringValue) row.word
  | ConditionType.ProbabilityOrder =>
    if cond.boolValue then
      cond.minValue ≤ row.maxProbabilityOrder ∧ row.minProbabilityOrder ≤ cond.maxValue
    else
      intRangeFilter row.probabilityOrder cond.minValue cond.maxValue
  | ConditionType.Length => intRangeFilter row.wordLength cond.minValue cond.maxValue
  | ConditionType.NumVowels => intRangeFilter row.numVowels cond.minValue cond.maxValue
  | ConditionType.NumUniqueLetters =>
    intRangeFilter row.numUniqueLetters cond.minValue cond.maxValue
  | ConditionType.PointValue => intRangeFilter row.pointValue cond.minValue cond.maxValue
  | ConditionType.NumAnagrams => intRangeFilter row.numAnagrams cond.minValue cond.maxValue
  | ConditionType.IncludeLetters =>
    includeLettersFilter cond.stringValue cond.negated row.word
  | ConditionType.BelongToGroup =>
    hookGroupFilter (stringToSearchSet cond.stringValue) cond.negated row
  | ConditionType.InWordList =>
    let words := splitW cond.stringValue
    if cond.negated then ! decide (row.word ∈ words) else decide (row.word ∈ words)
  | _ => true

/-- Modelled from the spec: WordGraph (WordGraph.cpp/h are not in src).
The spec gives its contract: membership test, idempotent insertion, and a
structural search over the fixed predicate kinds of its phase.  The word
set is explicit; the structural search is kept abstract as a field, since
no claim depends on its internals. -/
structure WordGraph where
  words : List Word := []
  searchFn : SearchSpec → List Word := fun _ => []

/-- WordGraph::containsWord: membership in the graph's word set. -/
def containsWord (g : WordGraph) (w : Word) : Bool := decide (w ∈ g.words)

/-- WordGraph::addWord: idempotent insertion (per the spec, adding an
existing word is a no-op). -/
def addWord (g : WordGraph) (w : Word) : WordGraph :=
  if containsWord g w then g else { g with words := g.words ++ [w] }

/-- Modelled from the spec: the WordInfo record of WordEngine.h (the
current header is not in src; the one in src is an older revision without
WordInfo).  One attribute row for a word, either fully populated from one
storage row or entirely default. -/
structure WordInfo where
  word : Word := []
  probabilityOrder : Int := 0
  minProbabilityOrder : Int := 0
  maxProbabilityOrder : Int := 0
  numVowels : Int := 0
  numUniqueLetters : Int := 0
  numAnagrams : Int := 0
  pointValue : Int := 0
  frontHooks : Word := []
  backHooks : Word := []
  isFrontHook : Bool := false
  isBackHook : Bool := false
  lexiconSymbols : Word := []
  definition : Word := []
  deriving DecidableEq

/-- Modelled from the spec: WordInfo validity distinguishes a row found
(word field set) from an absent row (default record, empty word). -/
def WordInfo.isValid (i : WordInfo) : Bool := ! i.word.isEmpty

/-- The WordInfo built from a database row by getWordInfo and addToCache
(WordEngine.cpp lines 804-820 and 1031-1047); the word field is the
lookup key. -/
def rowInfo (w : Word) (row : DbRow) : WordInfo :=
  { word := w
    probabilityOrder := row.probabilityOrder
    minProbabilityOrder := row.minProbabilityOrder
    maxProbabilityOrder := row.maxProbabilityOrder
    numVowels := row.numVowels
    numUniqueLetters := row.numUniqueLetters
    numAnagrams := row.numAnagrams
    pointValue := row.pointValue
    frontHooks := row.frontHooks
    backHooks := row.backHooks
    isFrontHook := row.isFrontHook
    isBackHook := row.isBackHook
    lexiconSymbols := row.lexiconSymbols
    definition := row.definition }

/-- Per-lexicon state (WordEngine::LexiconData).  The database connection
is modelled as an optional table of rows; the definitions map is omitted
because no claim concerns it. -/
structure LexiconData where
  graph : WordGraph := {}
  db : Option (List DbRow) := none
  wordCache : List (Word × WordInfo) := []
  numAnagramsMap : Word → Nat := fun _ => 0
  stems : List (Nat × List Word) := []
  stemAlphagrams : List (Nat × List Word) := []

/-- The engine: one LexiconData per registered lexicon name.  Lexicon
names are opaque identifiers, modelled as naturals. -/
structure WordEngine where
  lexiconData : List (Nat × LexiconData) := []

/-- Lookup of a lexicon's data (lexiconData.contains / operator[]). -/
def WordEngine.lookup (e : WordEngine) (lex : Nat) : Option LexiconData :=
  assocLookup e.lexiconData lex

/-- Replace (or register) a lexicon's data. -/
def WordEngine.updateLex (e : WordEngine) (lex : Nat) (ld : LexiconData) : WordEngine :=
  ⟨assocInsert e.lexiconData lex ld⟩

/-- WordEngine::clearCache (WordEngine.cpp lines 45-52): clear the word
cache of a lexicon; no-op for an unregistered lexicon. -/
def clearCache (e : WordEngine) (lex : Nat) : WordEngine :=
  match e.lookup lex with
  | none => e
  | some ld => e.updateLex lex { ld with wordCache := [] }

/-- WordEngine::isAcceptable (WordEngine.cpp lines 637-644). -/
def isAcceptable (e : WordEngine) (lex : Nat) (word : Word) : Bool :=
  match e.lookup lex with
  | none => false
  | some ld => containsWord ld.graph word

/-- Point update of the per-alphagram anagram count map. -/
def bumpAnagram (m : Word → Nat) (alpha : Word) : Word → Nat :=
  fun a => if a = alpha then m a + 1 else m a

/-- Processing of one line of a text word-list import (WordEngine.cpp
lines 167-185, with loadDefinitions false): skip blank and comment lines,
take the first token upper-cased, bump the anagram count only when the
graph does not already contain the word, then add the word. -/
def importLine (ld : LexiconData) (line : Word) : LexiconData :=
  match tokenize line with
  | [] => ld
  | t :: _ =>
    if t.headD 0 = 35 then ld
    else
      let word := toUpperW t
      let ld' :=
        if containsWord ld.graph word then ld
        else { ld with numAnagramsMap := bumpAnagram ld.numAnagramsMap (getAlphagram word) }
      { ld' with graph := addWord ld'.graph word }

/-- WordEngine::importTextFile (WordEngine.cpp lines 145-189), over the
list of lines of the file: registers the lexicon when absent, then
processes each line in order. -/
def importTextFile (e : WordEngine) (lex : Nat) (lines : List Word) : WordEngine :=
  let ld := (e.lookup lex).getD {}
  e.updateLex lex (lines.foldl importLine ld)

/-- Insert into a set modelled as a duplicate-free list (QSet::insert). -/
def setInsert (l : List Word) (w : Word) : List Word :=
  if w ∈ l then l else l ++ [w]

/-- Set union (QSet::unite). -/
def setUnite (l : List Word) (new : List Word) : List Word :=
  new.foldl setInsert l

/-- Accumulator step of a stem-file import (WordEngine.cpp lines 255-271):
the first valid token fixes the expected length, tokens of other lengths
are discarded, words are collected in order and their alphagrams into a
set. -/
def stemLineStep : Nat × List Word × List Word → Word → Nat × List Word × List Word
  | (len, ws, alphas), line =>
    match tokenize line with
    | [] => (len, ws, alphas)
    | t :: _ =>
      if t.headD 0 = 35 then (len, ws, alphas)
      else
        let len' := if len = 0 then t.length else len
        if t.length = len' then (len', ws ++ [t], setInsert alphas (getAlphagram t))
        else (len', ws, alphas)

/-- WordEngine::importStems (WordEngine.cpp lines 232-279), over the list
of lines: no-op for an unregistered lexicon; otherwise appends the stems
and unites the alphagrams into the per-length maps. -/
def importStems (e : WordEngine) (lex : Nat) (lines : List Word) : WordEngine :=
  match e.lookup lex with
  | none => e
  | some ld =>
    let acc := lines.foldl stemLineStep (0, [], [])
    let len := acc.1
    let oldStems := (assocLookup ld.stems len).getD []
    let oldAlphas := (assocLookup ld.stemAlphagrams len).getD []
    e.updateLex lex
      { ld with
        stems := assocInsert ld.stems len (oldStems ++ acc.2.1)
        stemAlphagrams := assocInsert ld.stemAlphagrams len (setUnite oldAlphas acc.2.2) }

/-- The fixed priority-ordered letter multiset used for the Type-Two
check (the static typeTwoChars string of WordEngine::isSetMember, spells
AAADEEEEGIIILNNOORRSSTTU). -/
def typeTwoChars : Word :=
  [65, 65, 65, 68, 69, 69, 69, 69, 71, 73, 73, 73, 76, 78, 78, 79, 79,
   82, 82, 83, 83, 84, 84, 85]

/-- Modelled from the spec: LetterBag::getLetterValue (LetterBag.cpp is
not in src).  Standard per-letter tile point values, used only by the
high-fives classification. -/
def letterValue (u : Nat) : Nat :=
  if u = 65 ∨ u = 69 ∨ u = 73 ∨ u = 79 ∨ u = 85 ∨ u = 76 ∨ u = 78 ∨
     u = 82 ∨ u = 83 ∨ u = 84 then 1
  else if u = 68 ∨ u = 71 then 2
  else if u = 66 ∨ u = 67 ∨ u = 77 ∨ u = 80 then 3
  else if u = 70 ∨ u = 72 ∨ u = 86 ∨ u = 87 ∨ u = 89 then 4
  else if u = 75 then 5
  else if u = 74 ∨ u = 88 then 8
  else if u = 81 ∨ u = 90 then 10
  else 0

/-- The word HUNTERS as code units (Type-Three sevens reference word). -/
def huntersW : Word := [72, 85, 78, 84, 69, 82, 83]

/-- The word NOTIFIED as code units (Type-Three eights reference word). -/
def notifiedW : Word := [78, 79, 84, 73, 70, 73, 69, 68]

/-- Type-One sevens test (WordEngine.cpp lines 1163-1182): the word has
length 7 and its alphagram with the letter at some position removed lies
in the stem-alphagram set for length 6. -/
def typeOneSevenMember (ld : LexiconData) (w : Word) : Bool :=
  if w.length ≠ 7 then false
  else
    match assocLookup ld.stemAlphagrams (w.length - 1) with
    | none => false
    | some alphaSet =>
      let agram := getAlphagram w
      (List.range agram.length).any fun i =>
        decide ((agram.take i ++ agram.drop (i + 1)) ∈ alphaSet)

/-- The inner comparison loop of the Type-One eights test (WordEngine.cpp
lines 1198-1212): scan the alphagram against a stem alphagram, counting
characters of the alphagram skipped before the stem alphagram is fully
matched, breaking as soon as more than two are skipped; returns the final
missing count. -/
def toeMissing : Word → Word → Nat → Nat
  | _, [], m => m
  | [], _ :: _, m => m
  | a :: as, s :: ss, m =>
    if a = s then toeMissing as ss m
    else if m + 1 > 2 then m + 1
    else toeMissing as (s :: ss) (m + 1)

/-- Type-One eights test (WordEngine.cpp lines 1184-1217): the word has
length 8 and some stem alphagram of the length-6 set matches its
alphagram with at most two characters missing. -/
def typeOneEightMember (ld : LexiconData) (w : Word) : Bool :=
  if w.length ≠ 8 then false
  else
    match assocLookup ld.stemAlphagrams (w.length - 2) with
    | none => false
    | some alphaSet =>
      let agram := getAlphagram w
      alphaSet.any fun sa => toeMissing agram sa 0 ≤ 2

/-- The greedy left-to-right consumption scan of the Type-Two test
(WordEngine.cpp lines 1226-1240): the pattern (the word's alphagram) is
matched greedily against the stream (typeTwoChars). -/
def greedySubseq : Word → Word → Bool
  | [], _ => true
  | _ :: _, [] => false
  | a :: as, t :: ts => if t = a then greedySubseq as ts else greedySubseq (a :: as) ts

/-- Type-Two sevens/eights test (WordEngine.cpp lines 1219-1243): correct
length, alphagram consumable from typeTwoChars in one greedy pass, and
not already Type-One. -/
def typeTwoMember (ld : LexiconData) (w : Word) (seven : Bool) : Bool :=
  if (seven ∧ w.length ≠ 7) ∨ (¬ seven ∧ w.length ≠ 8) then false
  else
    greedySubseq (getAlphagram w) typeTwoChars &&
    ! (if seven then typeOneSevenMember ld w else typeOneEightMember ld w)

/-- Type-Three sevens test (WordEngine.cpp lines 1245-1253): length 7,
combination count at least that of HUNTERS, and neither Type-One nor
Type-Two.  The combination count function is a parameter standing for
LetterBag::getNumCombinations of the static letter bag. -/
def typeThreeSevenMember (combos : Word → Nat) (ld : LexiconData) (w : Word) : Bool :=
  if w.length ≠ 7 then false
  else
    decide (combos huntersW ≤ combos w) &&
    ! typeOneSevenMember ld w && ! typeTwoMember ld w true

/-- Type-Three eights test (WordEngine.cpp lines 1255-1263). -/
def typeThreeEightMember (combos : Word → Nat) (ld : LexiconData) (w : Word) : Bool :=
  if w.length ≠ 8 then false
  else
    decide (combos notifiedW ≤ combos w) &&
    ! typeOneEightMember ld w && ! typeTwoMember ld w false

/-- High-fives test (WordEngine.cpp lines 1148-1161): exactly five
letters, all letter values at most 5, and an end letter of value 4 or 5. -/
def highFivesMember (w : Word) : Bool :=
  if w.length ≠ 5 then false
  else
    (w.all fun u => letterValue u ≤ 5) &&
    (letterValue (w.headD 0) = 4 || letterValue (w.headD 0) = 5 ||
     letterValue (w.getLastD 0) = 4 || letterValue (w.getLastD 0) = 5)

/-- Eights-from-seven-letter-stems test (WordEngine.cpp lines 1265-1284):
length 8 and the alphagram with one letter removed lies in the length-7
stem-alphagram set. -/
def eightsFromSevenMember (ld : LexiconData) (w : Word) : Bool :=
  if w.length ≠ 8 then false
  else
    match assocLookup ld.stemAlphagrams (w.length - 1) with
    | none => false
    | some alphaSet =>
      let agram := getAlphagram w
      (List.range agram.length).any fun i =>
        decide ((agram.take i ++ agram.drop (i + 1)) ∈ alphaSet)

/-- WordEngine::isSetMember (WordEngine.cpp lines 1120-1288).  The
combination count function is a parameter standing for
LetterBag::getNumCombinations of the static letter bag. -/
def isSetMember (combos : Word → Nat) (e : WordEngine) (lex : Nat) (w : Word)
    (ss : SearchSet) : Bool :=
  match e.lookup lex with
  | none => false
  | some ld =>
    match ss with
    | SearchSet.SetHookWords =>
      isAcceptable e lex (w.take (w.length - 1)) || isAcceptable e lex (w.drop 1)
    | SearchSet.SetFrontHooks => isAcceptable e lex (w.drop 1)
    | SearchSet.SetBackHooks => isAcceptable e lex (w.take (w.length - 1))
    | SearchSet.SetHighFives => highFivesMember w
    | SearchSet.SetTypeOneSevens => typeOneSevenMember ld w
    | SearchSet.SetTypeOneEights => typeOneEightMember ld w
    | SearchSet.SetTypeTwoSevens => typeTwoMember ld w true
    | SearchSet.SetTypeTwoEights => typeTwoMember ld w false
    | SearchSet.SetTypeThreeSevens => typeThreeSevenMember combos ld w
    | SearchSet.SetTypeThreeEights => typeThreeEightMember combos ld w
    | SearchSet.SetEightsFromSevenLetterStems => eightsFromSevenMember ld w
    | SearchSet.UnknownSearchSet => false

/-- WordEngine::matchesPostConditions (WordEngine.cpp lines 1063-1107):
a word passes every post-phase condition; false for an unregistered
lexicon. -/
def matchesPostConditions (combos : Word → Nat) (e : WordEngine) (lex : Nat)
    (word : Word) (conditions : List SearchCondition) : Bool :=
  if (e.lookup lex).isNone then false
  else
    let wu := toUpperW word
    conditions.all fun c =>
      if getConditionPhase c ≠ ConditionPhase.PostConditionPhase then true
      else
        match c.type with
        | ConditionType.PrefixCond =>
          ! ((! isAcceptable e lex (c.stringValue ++ wu)).xor c.negated)
        | ConditionType.SuffixCond =>
          ! ((! isAcceptable e lex (wu ++ c.stringValue)).xor c.negated)
        | ConditionType.BelongToGroup =>
          let ss := stringToSearchSet c.stringValue
          if ss = SearchSet.UnknownSearchSet then true
          else ! ((! isSetMember combos e lex wu ss).xor c.negated)
        | _ => true

/-- Accumulated bounds of the LimitByProbabilityOrder conditions
(WordEngine.cpp lines 511-537). -/
structure ProbLimits where
  hasCond : Bool := false
  legacy : Bool := false
  rmin : Int := 0
  rmax : Int := 999999
  rminLax : Int := 0
  rmaxLax : Int := 999999

/-- One step of the bounds accumulation (WordEngine.cpp lines 518-536). -/
def probLimitsStep (pl : ProbLimits) (c : SearchCondition) : ProbLimits :=
  if c.type = ConditionType.LimitByProbabilityOrder then
    let pl1 := { pl with hasCond := true }
    let pl2 :=
      if c.boolValue then
        { pl1 with
          rminLax := if c.minValue > pl1.rminLax then c.minValue else pl1.rminLax
          rmaxLax := if c.maxValue < pl1.rmaxLax then c.maxValue else pl1.rmaxLax }
      else
        { pl1 with
          rmin := if c.minValue > pl1.rmin then c.minValue else pl1.rmin
          rmax := if c.maxValue < pl1.rmax then c.maxValue else pl1.rmax }
    if c.legacy then { pl2 with legacy := true } else pl2
  else pl

/-- The nine-digit zero-padded decimal rendering that sprintf produces
for a value below one billion (the %09.0f radix of WordEngine.cpp line
580), as code units. -/
def pad9 (n : Nat) : Word :=
  (List.range 9).map fun i => 48 + n / 10 ^ (8 - i) % 10

/-- The composite sort key of a word for probability windowing
(WordEngine.cpp lines 578-587): the padded value of one billion minus one
minus the word's combination count, then (unless legacy) the upper-cased
word's alphagram, then the upper-cased word. -/
def probRadix (combos : Word → Nat) (legacy : Bool) (word : Word) : Word :=
  let wu := toUpperW word
  pad9 (10 ^ 9 - 1 - combos wu) ++ (if legacy then [] else getAlphagram wu) ++ wu

/-- QMap insertion into the key-ordered entry list: an equal key replaces
the stored value, otherwise the entry is placed by key order. -/
def probMapInsert (k : Word) (v : Word) : List (Word × Word) → List (Word × Word)
  | [] => [(k, v)]
  | (k', v') :: rest =>
    if k = k' then (k, v) :: rest
    else if lexLt k k' then (k, v) :: (k', v') :: rest
    else (k', v') :: probMapInsert k v rest

/-- The probability map of WordEngine.cpp lines 573-588: every surviving
word inserted under its composite radix key. -/
def buildProbMap (combos : Word → Nat) (legacy : Bool) (words : List Word) :
    List (Word × Word) :=
  words.foldl (fun m w => probMapInsert (probRadix combos legacy w) w m) []

/-- The min-widening loop (WordEngine.cpp lines 592-598): decrement the
window start while it exceeds the strict lower bound and the key below it
still carries the boundary's nine-character combination-count value. -/
def widenMinLoop (keys : List Word) (strictMin : Int) (pfx : Word) : Nat → Nat
  | 0 => 0
  | m + 1 =>
    if strictMin < ((m : Int) + 1) ∧ (keys.getD m []).take 9 = pfx
    then widenMinLoop keys strictMin pfx m
    else m + 1

/-- The max-widening loop (WordEngine.cpp lines 600-606), with explicit
fuel (the loop advances at most once per list position). -/
def widenMaxLoop (keys : List Word) (strictMax : Int) (pfx : Word) :
    Nat → Nat → Nat
  | mx, 0 => mx
  | mx, fuel + 1 =>
    if (mx : Int) < (keys.length : Int) - 1 ∧ (mx : Int) < strictMax ∧
       (keys.getD (mx + 1) []).take 9 = pfx
    then widenMaxLoop keys strictMax pfx (mx + 1) fuel
    else mx

/-- QList::mid(pos, length): the length items from position pos, the rest
of the list when length is negative. -/
def listMid {α : Type} (l : List α) (pos len : Int) : List α :=
  if len < 0 then l.drop pos.toNat else (l.drop pos.toNat).take len.toNat

/-- WordEngine::applyPostConditions (WordEngine.cpp lines 495-612): drop
words failing the per-word post conditions, then, when
LimitByProbabilityOrder conditions are present, keep only the selected
probability-order window, widened at both ends over runs of equal
combination-count key values. -/
def applyPostConditions (combos : Word → Nat) (e : WordEngine) (lex : Nat)
    (spec : SearchSpec) (wordList : List Word) : List Word :=
  let returnList :=
    wordList.filter fun w => matchesPostConditions combos e lex w spec.conditions
  let pl := spec.conditions.foldl probLimitsStep {}
  if pl.hasCond then
    if pl.rmin > (returnList.length : Int) ∨ pl.rminLax > (returnList.length : Int)
    then []
    else
      let m1 := pl.rmin - 1
      let m2 := pl.rmax - 1
      let l1 := pl.rminLax - 1
      let l2 := pl.rmaxLax - 1
      let m1' := if m1 < 0 then 0 else m1
      let l1' := if l1 < 0 then 0 else l1
      let m2' := if m2 > (returnList.length : Int) - 1 then (returnList.length : Int) - 1 else m2
      let l2' := if l2 > (returnList.length : Int) - 1 then (returnList.length : Int) - 1 else l2
      let wmin := if m1' > l1' then m1' else l1'
      let wmax := if m2' < l2' then m2' else l2'
      let probMap := buildProbMap combos pl.legacy returnList
      let keys := probMap.map Prod.fst
      let minCombinations := (keys.getD wmin.toNat []).take 9
      let wmin' := widenMinLoop keys m1' minCombinations wmin.toNat
      let maxCombinations := (keys.getD wmax.toNat []).take 9
      let wmax' := widenMaxLoop keys m2' maxCombinations wmax.toNat keys.length
      listMid (probMap.map Prod.snd) (wmin' : Int) ((wmax' : Int) - (wmin' : Int) + 1)
  else returnList

/-- Conjunction, on one table row, of the WHERE fragments of all
database-phase conditions of a specification (the condition loop of
WordEngine::databaseSearch, lines 303-450). -/
def dbRowPass (spec : SearchSpec) (row : DbRow) : Bool :=
  (spec.conditions.filter fun c => getConditionPhase c = ConditionPhase.DatabasePhase).all
    fun c => condFilter c row

/-- WordEngine::databaseSearch (WordEngine.cpp lines 293-483): evaluate
the generated WHERE clause over the table rows; when a restriction word
list is supplied, keep only rows whose word is among its upper-cased
members and remap each result through the upper-to-original-casing map
(later duplicates overwrite earlier ones, as QMap::insert does).  Empty
result for an unregistered lexicon or an absent database. -/
def databaseSearch (e : WordEngine) (lex : Nat) (spec : SearchSpec)
    (wordList : Option (List Word)) : List Word :=
  match e.lookup lex with
  | none => []
  | some ld =>
    match ld.db with
    | none => []
    | some table =>
      let rowPass := fun row => dbRowPass spec row
      let u2l : List (Word × Word) :=
        match wordList with
        | none => []
        | some ws => ws.foldl (fun m w => assocInsert m (toUpperW w) w) []
      let rows :=
        match wordList with
        | none => table.filter rowPass
        | some ws =>
          table.filter fun row => rowPass row && decide (row.word ∈ ws.map toUpperW)
      rows.map fun row =>
        if u2l.isEmpty then row.word
        else
          match assocLookup u2l row.word with
          | some original => original
          | none => row.word

/-- Occurrence counts of the condition phases in a specification
(the QMap phaseCounts of WordEngine::search, lines 667-676): for each
phase, whether the key is present and its count. -/
structure PhaseCounts where
  wgHas : Bool := false
  wgCount : Int := 0
  dbHas : Bool := false
  dbCount : Int := 0
  postHas : Bool := false
  postCount : Int := 0
  unkHas : Bool := false
  unkCount : Int := 0

/-- Increment of one phase count. -/
def bumpPhase (pc : PhaseCounts) (p : ConditionPhase) : PhaseCounts :=
  match p with
  | ConditionPhase.WordGraphPhase => { pc with wgHas := true, wgCount := pc.wgCount + 1 }
  | ConditionPhase.DatabasePhase => { pc with dbHas := true, dbCount := pc.dbCount + 1 }
  | ConditionPhase.PostConditionPhase =>
    { pc with postHas := true, postCount := pc.postCount + 1 }
  | ConditionPhase.UnknownPhase => { pc with unkHas := true, unkCount := pc.unkCount + 1 }

/-- WordEngine::addToCache (WordEngine.cpp lines 1004-1049): bulk-fetch
the rows of the given words and store each under its own word. -/
def addToCache (e : WordEngine) (lex : Nat) (words : List Word) : WordEngine :=
  match e.lookup lex with
  | none => e
  | some ld =>
    if words.isEmpty then e
    else
      match ld.db with
      | none => e
      | some table =>
        let rows := table.filter fun row => decide (row.word ∈ words)
        e.updateLex lex
          { ld with
            wordCache :=
              rows.foldl (fun c row => assocInsert c row.word (rowInfo row.word row))
                ld.wordCache }

/-- The phase pipeline of WordEngine::search (WordEngine.cpp lines
663-714) for a registered lexicon: phase counting, the duplicate-Length
adjustment, the word-graph phase with its empty short-circuit, the
database phase with its short-circuit, the post-condition phase, and the
optional upper-casing.  Returns the final result list and whether the
database phase was invoked. -/
def searchCompute (combos : Word → Nat) (e : WordEngine) (lex : Nat)
    (ld : LexiconData) (spec : SearchSpec) (allCaps : Bool) : List Word × Bool :=
  let ospec := spec.optimize
  let pc0 := ospec.conditions.foldl (fun pc c => bumpPhase pc (getConditionPhase c)) {}
  let lengthConditions : Int :=
    ((ospec.conditions.filter fun c => c.type = ConditionType.Length).length : Int)
  let pc :=
    if pc0.wgHas ∧ lengthConditions ≠ 0 ∧ lengthConditions = pc0.dbCount
    then { pc0 with dbCount := pc0.dbCount - 1 }
    else pc0
  let ranGraph := pc.wgHas ∨ ¬ pc.dbHas
  let r1 := if ranGraph then ld.graph.searchFn ospec else []
  if ranGraph ∧ r1.isEmpty then ([], false)
  else
    let r2 :=
      if pc.dbHas then databaseSearch e lex ospec (if pc.wgHas then some r1 else none)
      else r1
    if pc.dbHas ∧ r2.isEmpty then ([], pc.dbHas)
    else
      let r3 := if pc.postHas then applyPostConditions combos e lex ospec r2 else r2
      let r4 := if allCaps then r3.map toUpperW else r3
      (r4, pc.dbHas)

/-- WordEngine::search (WordEngine.cpp lines 656-722), with its state
effect and an explicit record of whether the database phase was invoked:
returns (result list, new engine state, database-phase-invoked flag).
Every early return of the source leaves the state untouched, as does an
empty final result; a non-empty final result clears and repopulates the
word cache (lines 716-719). -/
def searchFull (combos : Word → Nat) (e : WordEngine) (lex : Nat)
    (spec : SearchSpec) (allCaps : Bool) : List Word × WordEngine × Bool :=
  match e.lookup lex with
  | none => ([], e, false)
  | some ld =>
    let rf := searchCompute combos e lex ld spec allCaps
    if rf.1.isEmpty then (rf.1, e, rf.2)
    else (rf.1, addToCache (clearCache e lex) lex rf.1, rf.2)

/-- WordEngine::getWordInfo (WordEngine.cpp lines 775-823): serve from
the cache when present; otherwise query the database, caching the row
when found; the default (invalid) record otherwise.  Returns the info
and the possibly extended engine state. -/
def getWordInfo (e : WordEngine) (lex : Nat) (word : Word) : WordInfo × WordEngine :=
  if word.isEmpty then ({}, e)
  else
    match e.lookup lex with
    | none => ({}, e)
    | some ld =>
      match assocLookup ld.wordCache word with
      | some info => (info, e)
      | none =>
        match ld.db with
        | none => ({}, e)
        | some table =>
          match table.find? (fun row => row.word = word) with
          | none => ({}, e)
          | some row =>
            let info := rowInfo word row
            (info, e.updateLex lex { ld with wordCache := assocInsert ld.wordCache word info })

/-- WordEngine::getNumAnagrams (WordEngine.cpp lines 1299-1314). -/
def getNumAnagrams (e : WordEngine) (lex : Nat) (word : Word) : Int :=
  match e.lookup lex with
  | none => 0
  | some ld =>
    let info := (getWordInfo e lex word).1
    if info.isValid then info.numAnagrams
    else (ld.numAnagramsMap (getAlphagram word) : Int)

/-- WordEngine::getProbabilityOrder (WordEngine.cpp lines 1325-1334). -/
def getProbabilityOrder (e : WordEngine) (lex : Nat) (word : Word) : Int :=
  match e.lookup lex with
  | none => 0
  | some _ =>
    let info := (getWordInfo e lex word).1
    if info.isValid then info.probabilityOrder else 0

/-- WordEngine::getMinProbabilityOrder (WordEngine.cpp lines 1345-1354). -/
def getMinProbabilityOrder (e : WordEngine) (lex : Nat) (word : Word) : Int :=
  match e.lookup lex with
  | none => 0
  | some _ =>
    let info := (getWordInfo e lex word).1
    if info.isValid then info.minProbabilityOrder else 0

/-- WordEngine::getMaxProbabilityOrder (WordEngine.cpp lines 1365-1374). -/
def getMaxProbabilityOrder (e : WordEngine) (lex : Nat) (word : Word) : Int :=
  match e.lookup lex with
  | none => 0
  | some _ =>
    let info := (getWordInfo e lex word).1
    if info.isValid then info.maxProbabilityOrder else 0

/-- WordEngine::getNumVowels (WordEngine.cpp lines 1385-1391): no test of
lexicon registration; falls back to computing from the word itself. -/
def getNumVowels (e : WordEngine) (lex : Nat) (word : Word) : Int :=
  let info := (getWordInfo e lex word).1
  if info.isValid then info.numVowels else (auxNumVowels word : Int)

/-- WordEngine::getNumUniqueLetters (WordEngine.cpp lines 1402-1409): no
test of lexicon registration; falls back to computing from the word. -/
def getNumUniqueLetters (e : WordEngine) (lex : Nat) (word : Word) : Int :=
  let info := (getWordInfo e lex word).1
  if info.isValid then info.numUniqueLetters else (auxNumUniqueLetters word : Int)

/-- WordEngine::getPointValue (WordEngine.cpp lines 1420-1428). -/
def getPointValue (e : WordEngine) (lex : Nat) (word : Word) : Int :=
  match e.lookup lex with
  | none => 0
  | some _ =>
    let info := (getWordInfo e lex word).1
    if info.isValid then info.pointValue else 0

/-- Well-formedness of a word cache with respect to a database table:
every entry is keyed by its own word, is a valid record, and equals the
record built from a row of the table. -/
def cacheWF (table : List DbRow) (cache : List (Word × WordInfo)) : Prop :=
  ∀ k info, assocLookup cache k = some info →
    info.word = k ∧ info.isValid = true ∧
    ∃ row ∈ table, row.word = k ∧ info = rowInfo k row

/-- Invariant of text imports: the graph holds no duplicates and the
per-alphagram anagram count equals the number of distinct imported words
with that alphagram. -/
def textInvariant (ld : LexiconData) : Prop :=
  ld.graph.words.Nodup ∧
  ∀ alpha, ld.numAnagramsMap alpha =
    (ld.graph.words.filter fun w => getAlphagram w = alpha).length

/-- The eights half of claim C7 as literally stated (for comparison with
the code): the word has length 8 and its alphagram with one letter
removed at some position lies in the stem-alphagram set for length 6. -/
def claimTypeOneEight (ld : LexiconData) (w : Word) : Bool :=
  if w.length ≠ 8 then false
  else
    match assocLookup ld.stemAlphagrams (w.length - 2) with
    | none => false
    | some alphaSet =>
      let agram := getAlphagram w
      (List.range agram.length).any fun i =>
        decide ((agram.take i ++ agram.drop (i + 1)) ∈ alphaSet)

/-- The last element of a caller word list whose upper-cased form is the
given canonical word (the casing that a last-wins map remembers). -/
def lastCasing (ws : List Word) (u : Word) : Option Word :=
  (ws.filter fun v => toUpperW v = u).getLast?

/-! Theorems about the claims. -/

/-- C8: for every lexicon and every word, the Type-One, Type-Two and
Type-Three classifications of the same length class (sevens, eights) are
pairwise disjoint: Type-Two entails not-Type-One, and Type-Three entails
not-Type-One and not-Type-Two. -/
theorem c8_type_sets_exclusive (combos : Word → Nat) (e : WordEngine) (lex : Nat)
    (w : Word) :
    (isSetMember combos e lex w SearchSet.SetTypeOneSevens &&
     isSetMember combos e lex w SearchSet.SetTypeTwoSevens) = false ∧
    (isSetMember combos e lex w SearchSet.SetTypeOneSevens &&
     isSetMember combos e lex w SearchSet.SetTypeThreeSevens) = false ∧
    (isSetMember combos e lex w SearchSet.SetTypeTwoSevens &&
     isSetMember combos e lex w SearchSet.SetTypeThreeSevens) = false ∧
    (isSetMember combos e lex w SearchSet.SetTypeOneEights &&
     isSetMember combos e lex w SearchSet.SetTypeTwoEights) = false ∧
    (isSetMember combos e lex w SearchSet.SetTypeOneEights &&
     isSetMember combos e lex w SearchSet.SetTypeThreeEights) = false ∧
    (isSetMember combos e lex w SearchSet.SetTypeTwoEights &&
     isSetMember combos e lex w SearchSet.SetTypeThreeEights) = false := by
  cases hl : e.lookup lex with
  | none => simp [isSetMember, hl]
  | some ld =>
    refine ⟨?_, ?_, ?_, ?_, ?_, ?_⟩ <;> simp only [isSetMember, hl]
    · cases h1 : typeOneSevenMember ld w <;> simp [typeTwoMember, h1]
    · cases h1 : typeOneSevenMember ld w <;> simp [typeThreeSevenMember, h1]
    · cases h2 : typeTwoMember ld w true <;> simp [typeThreeSevenMember, h2]
    · cases h1 : typeOneEightMember ld w <;> simp [typeTwoMember, h1]
    · cases h1 : typeOneEightMember ld w <;> simp [typeThreeEightMember, h1]
    · cases h2 : typeTwoMember ld w false <;> simp [typeThreeEightMember, h2]

/-- C4 counterexample: on an unregistered lexicon, getNumVowels and
getNumUniqueLetters do not return zero; they compute the value from the
word itself (here SEA, which has 2 vowels and 3 unique letters), contrary
to the claim that every numeric attribute getter returns zero. -/
theorem c4_counterexample :
    WordEngine.lookup { lexiconData := [] } 0 = none ∧
    getNumVowels { lexiconData := [] } 0 [83, 69, 65] = 2 ∧
    getNumUniqueLetters { lexiconData := [] } 0 [83, 69, 65] = 3 := by
  refine ⟨rfl, ?_, ?_⟩ <;> decide

/-- C4 amended: every operation invoked with an unregistered lexicon name
returns an empty, default, false, or zero value and modifies no state —
except that getNumVowels and getNumUniqueLetters deliberately fall back
to computing the value from the word itself. -/
theorem c4_amended_defaults (e : WordEngine) (lex : Nat) (w : Word)
    (combos : Word → Nat) (spec : SearchSpec) (allCaps : Bool)
    (h : e.lookup lex = none) :
    searchFull combos e lex spec allCaps = ([], e, false) ∧
    isAcceptable e lex w = false ∧
    getWordInfo e lex w = ({}, e) ∧
    (getWordInfo e lex w).1.isValid = false ∧
    getNumAnagrams e lex w = 0 ∧
    getProbabilityOrder e lex w = 0 ∧
    getMinProbabilityOrder e lex w = 0 ∧
    getMaxProbabilityOrder e lex w = 0 ∧
    getPointValue e lex w = 0 ∧
    getNumVowels e lex w = (auxNumVowels w : Int) ∧
    getNumUniqueLetters e lex w = (auxNumUniqueLetters w : Int) := by
  have hinfo : getWordInfo e lex w = ({}, e) := by
    unfold getWordInfo
    rw [h]
    simp
  refine ⟨?_, ?_, hinfo, ?_, ?_, ?_, ?_, ?_, ?_, ?_, ?_⟩
  · unfold searchFull; rw [h]
  · unfold isAcceptable; rw [h]
  · rw [hinfo]; rfl
  · unfold getNumAnagrams; rw [h]
  · unfold getProbabilityOrder; rw [h]
  · unfold getMinProbabilityOrder; rw [h]
  · unfold getMaxProbabilityOrder; rw [h]
  · unfold getPointValue; rw [h]
  · unfold getNumVowels; rw [hinfo]; rfl
  · unfold getNumUniqueLetters; rw [hinfo]; rfl

/-- C4 amended, witness: the amended statement at the empty engine,
lexicon 0 and the word SEA. -/
theorem c4_amended_defaults_witness :
    WordEngine.lookup { lexiconData := [] } 0 = none ∧
    (searchFull (fun _ => 0) { lexiconData := [] } 0 {} false =
      ([], { lexiconData := [] }, false) ∧
     isAcceptable { lexiconData := [] } 0 [83, 69, 65] = false ∧
     getWordInfo { lexiconData := [] } 0 [83, 69, 65] = ({}, { lexiconData := [] }) ∧
     (getWordInfo { lexiconData := [] } 0 [83, 69, 65]).1.isValid = false ∧
     getNumAnagrams { lexiconData := [] } 0 [83, 69, 65] = 0 ∧
     getProbabilityOrder { lexiconData := [] } 0 [83, 69, 65] = 0 ∧
     getMinProbabilityOrder { lexiconData := [] } 0 [83, 69, 65] = 0 ∧
     getMaxProbabilityOrder { lexiconData := [] } 0 [83, 69, 65] = 0 ∧
     getPointValue { lexiconData := [] } 0 [83, 69, 65] = 0 ∧
     getNumVowels { lexiconData := [] } 0 [83, 69, 65] =
       (auxNumVowels [83, 69, 65] : Int) ∧
     getNumUniqueLetters { lexiconData := [] } 0 [83, 69, 65] =
       (auxNumUniqueLetters [83, 69, 65] : Int)) :=
  ⟨rfl, c4_amended_defaults { lexiconData := [] } 0 [83, 69, 65] (fun _ => 0) {} false rfl⟩

/-- C3 (code bug, at a concrete input): a specification containing only
the AnagramMatch condition TAC is routed to the word-graph phase, and the
spec's phase-routing property (with the comment at WordEngine.cpp lines
678-679) requires the attribute backend never to be invoked for it; but
the optimizer adds its implicit Length condition, the decrement at line
683 lowers the DatabasePhase count without removing the QMap key, and
line 697 dispatches on key presence, so databaseSearch is invoked — here,
with no database connected, the search returns empty instead of the graph
result CAT. -/
theorem c3_code_bug_database_invoked :
    getConditionPhase { type := ConditionType.AnagramMatch, stringValue := [84, 65, 67] } =
      ConditionPhase.WordGraphPhase ∧
    (SearchSpec.optimize
        { conjunction := true,
          conditions := [{ type := ConditionType.AnagramMatch,
                           stringValue := [84, 65, 67] }] }).conditions =
      [{ type := ConditionType.AnagramMatch, stringValue := [84, 65, 67] },
       { type := ConditionType.Length, minValue := 3, maxValue := 3 }] ∧
    ({ searchFn := fun _ => [[67, 65, 84]] } : WordGraph).searchFn
      (SearchSpec.optimize
        { conjunction := true,
          conditions := [{ type := ConditionType.AnagramMatch,
                           stringValue := [84, 65, 67] }] }) = [[67, 65, 84]] ∧
    (searchFull (fun _ => 0)
       { lexiconData := [(5, { graph := { searchFn := fun _ => [[67, 65, 84]] } })] } 5
       { conjunction := true,
         conditions := [{ type := ConditionType.AnagramMatch,
                          stringValue := [84, 65, 67] }] } false).2.2 = true ∧
    (searchFull (fun _ => 0)
       { lexiconData := [(5, { graph := { searchFn := fun _ => [[67, 65, 84]] } })] } 5
       { conjunction := true,
         conditions := [{ type := ConditionType.AnagramMatch,
                          stringValue := [84, 65, 67] }] } false).1 = [] :=
  ⟨rfl, by decide, rfl, by decide, by decide⟩

/-- Lookup after insert-or-replace: the inserted key maps to the new
value, other keys are unaffected. -/
theorem assocLookup_assocInsert {α β : Type} [DecidableEq α] (m : List (α × β))
    (k k' : α) (v : β) :
    assocLookup (assocInsert m k v) k' = if k = k' then some v else assocLookup m k' := by
  induction m with
  | nil => simp [assocInsert, assocLookup]
  | cons p rest ih =>
    obtain ⟨k0, v0⟩ := p
    by_cases h0 : k0 = k
    · subst h0
      simp only [assocInsert, if_pos rfl, assocLookup]
      by_cases h1 : k0 = k' <;> simp [h1]
    · simp only [assocInsert, if_neg h0, assocLookup]
      rcases eq_or_ne k0 k' with h1 | h1
      · subst h1
        rw [if_pos rfl, if_neg (show k ≠ k0 from fun hk => h0 hk.symm), if_pos rfl]
      · rw [if_neg h1, ih]
        by_cases h2 : k = k' <;> simp [h2, h1]

/-- Registering or replacing a lexicon makes it the one looked up. -/
theorem lookup_updateLex (e : WordEngine) (lex : Nat) (ld : LexiconData) :
    (e.updateLex lex ld).lookup lex = some ld := by
  unfold WordEngine.updateLex WordEngine.lookup
  rw [assocLookup_assocInsert]
  simp

/-- Inserting the record of a table row (under the row's own word) keeps
the cache well-formed. -/
theorem cacheWF_insert (table : List DbRow) (cache : List (Word × WordInfo))
    (w : Word) (row : DbRow) (hrow : row ∈ table) (hw : row.word = w)
    (hne : ∀ r ∈ table, r.word ≠ []) (hwf : cacheWF table cache) :
    cacheWF table (assocInsert cache w (rowInfo w row)) := by
  intro k info hk
  rw [assocLookup_assocInsert] at hk
  split at hk
  · next heq =>
    cases hk
    subst heq
    refine ⟨rfl, ?_, row, hrow, hw, rfl⟩
    have : w ≠ [] := by rw [← hw]; exact hne row hrow
    simp [WordInfo.isValid, rowInfo, this]
  · exact hwf k info hk

/-- Folding table rows into the cache keeps it well-formed. -/
theorem cacheWF_foldl (table : List DbRow) (rows : List DbRow)
    (hrows : ∀ r ∈ rows, r ∈ table) (hne : ∀ r ∈ table, r.word ≠ []) :
    ∀ cache, cacheWF table cache →
      cacheWF table
        (rows.foldl (fun c row => assocInsert c row.word (rowInfo row.word row)) cache) := by
  induction rows with
  | nil => intro cache hc; simpa using hc
  | cons r rest ih =>
    intro cache hc
    simp only [List.foldl_cons]
    have hr : r ∈ table := hrows r (List.mem_cons_self r rest)
    exact ih (fun x hx => hrows x (List.mem_cons_of_mem r hx)) _
      (cacheWF_insert table cache r.word r hr rfl hne hc)

/-- C10: the word cache only ever holds valid, fully populated records
keyed by their own word: getWordInfo caches only found rows and never
caches (nor changes any state for) a word with no database row, and
addToCache stores only rows actually present in the table, keyed by their
own word. -/
theorem c10_cache_wellformed (e : WordEngine) (lex : Nat) (ld : LexiconData)
    (table : List DbRow) (h : e.lookup lex = some ld) (hdb : ld.db = some table)
    (hne : ∀ r ∈ table, r.word ≠ []) (hwf : cacheWF table ld.wordCache) :
    (∀ w, ∃ ld', (getWordInfo e lex w).2.lookup lex = some ld' ∧
       ld'.db = some table ∧ cacheWF table ld'.wordCache) ∧
    (∀ w, table.find? (fun row => row.word = w) = none → (getWordInfo e lex w).2 = e) ∧
    (∀ ws, ∃ ld', (addToCache e lex ws).lookup lex = some ld' ∧
       ld'.db = some table ∧ cacheWF table ld'.wordCache) := by
  refine ⟨?_, ?_, ?_⟩
  · intro w
    unfold getWordInfo
    by_cases hw : w.isEmpty
    · rw [if_pos hw]; exact ⟨ld, h, hdb, hwf⟩
    · rw [if_neg hw, h]
      dsimp only
      cases hcache : assocLookup ld.wordCache w with
      | some info => exact ⟨ld, h, hdb, hwf⟩
      | none =>
        rw [hdb]
        dsimp only
        cases hfind : table.find? (fun row => row.word = w) with
        | none => exact ⟨ld, h, hdb, hwf⟩
        | some row =>
          refine ⟨_, lookup_updateLex _ _ _, rfl, ?_⟩
          have hmem : row ∈ table := List.mem_of_find?_eq_some hfind
          have hword : row.word = w := by
            have := List.find?_some hfind
            simpa using this
          exact cacheWF_insert table ld.wordCache w row hmem hword hne hwf
  · intro w hfind
    unfold getWordInfo
    by_cases hw : w.isEmpty
    · rw [if_pos hw]
    · rw [if_neg hw, h]
      dsimp only
      cases hcache : assocLookup ld.wordCache w with
      | some info => rfl
      | none =>
        rw [hdb]
        dsimp only
        rw [hfind]
  · intro ws
    unfold addToCache
    rw [h]
    dsimp only
    by_cases hws : ws.isEmpty
    · rw [if_pos hws]; exact ⟨ld, h, hdb, hwf⟩
    · rw [if_neg hws, hdb]
      dsimp only
      refine ⟨_, lookup_updateLex _ _ _, rfl, ?_⟩
      exact cacheWF_foldl table _ (fun r hr => (List.mem_filter.mp hr).1) hne _ hwf

/-- C10 witness: the statement at a concrete engine holding one row (CAT)
and an empty cache. -/
theorem c10_cache_wellformed_witness :
    (∀ w, ∃ ld', (getWordInfo { lexiconData := [(3, { db := some [{ word := [67, 65, 84] }] })] }
         3 w).2.lookup 3 = some ld' ∧
       ld'.db = some [{ word := [67, 65, 84] }] ∧
       cacheWF [{ word := [67, 65, 84] }] ld'.wordCache) ∧
    (∀ w, ([{ word := [67, 65, 84] }] : List DbRow).find? (fun row => row.word = w) = none →
       (getWordInfo { lexiconData := [(3, { db := some [{ word := [67, 65, 84] }] })] } 3 w).2 =
         { lexiconData := [(3, { db := some [{ word := [67, 65, 84] }] })] }) ∧
    (∀ ws, ∃ ld', (addToCache { lexiconData := [(3, { db := some [{ word := [67, 65, 84] }] })] }
         3 ws).lookup 3 = some ld' ∧
       ld'.db = some [{ word := [67, 65, 84] }] ∧
       cacheWF [{ word := [67, 65, 84] }] ld'.wordCache) :=
  c10_cache_wellformed _ 3 { db := some [{ word := [67, 65, 84] }] } _ rfl rfl
    (by decide) (by intro k info hk; simp [assocLookup] at hk)

/-- Inserting twice under the same key keeps only the last value. -/
theorem assocInsert_assocInsert {α β : Type} [DecidableEq α] (m : List (α × β))
    (k : α) (v v' : β) :
    assocInsert (assocInsert m k v) k v' = assocInsert m k v' := by
  induction m with
  | nil => simp [assocInsert]
  | cons p rest ih =>
    obtain ⟨k0, v0⟩ := p
    by_cases h0 : k0 = k <;> simp [assocInsert, h0, ih]

/-- Updating the same lexicon twice keeps only the last data. -/
theorem updateLex_updateLex (e : WordEngine) (lex : Nat) (a b : LexiconData) :
    (e.updateLex lex a).updateLex lex b = e.updateLex lex b := by
  unfold WordEngine.updateLex
  simp [assocInsert_assocInsert]

/-- The keys present after folding table rows into a cache are exactly
the rows' words together with the keys already present. -/
theorem assocLookup_foldl_isSome (rows : List DbRow) :
    ∀ (cache : List (Word × WordInfo)) (w : Word),
      (assocLookup
        (rows.foldl (fun c row => assocInsert c row.word (rowInfo row.word row)) cache)
        w).isSome = true ↔
      (∃ r ∈ rows, r.word = w) ∨ (assocLookup cache w).isSome = true := by
  induction rows with
  | nil => intro cache w; simp
  | cons r rest ih =>
    intro cache w
    rw [List.foldl_cons, ih, assocLookup_assocInsert]
    by_cases hrw : r.word = w
    · constructor
      · intro _
        exact Or.inl ⟨r, List.mem_cons_self r rest, hrw⟩
      · intro _
        refine Or.inr ?_
        rw [if_pos hrw]
        rfl
    · rw [if_neg hrw]
      constructor
      · rintro (⟨x, hx, hxw⟩ | hc)
        · exact Or.inl ⟨x, List.mem_cons_of_mem r hx, hxw⟩
        · exact Or.inr hc
      · rintro (⟨x, hx, hxw⟩ | hc)
        · rcases List.mem_cons.mp hx with rfl | hx'
          · exact absurd hxw hrw
          · exact Or.inl ⟨x, hx', hxw⟩
        · exact Or.inr hc

/-- C9: search clears and repopulates the lexicon's word cache with one
bulk fetch covering exactly the final result words if and only if the
final result is non-empty; an empty final result leaves the engine state
untouched, and a non-empty one changes nothing but the word cache, whose
keys are exactly the result words that have a database row. -/
theorem c9_search_cache_refresh (combos : Word → Nat) (e : WordEngine) (lex : Nat)
    (ld : LexiconData) (table : List DbRow) (spec : SearchSpec) (allCaps : Bool)
    (h : e.lookup lex = some ld) (hdb : ld.db = some table) :
    ((searchFull combos e lex spec allCaps).1 = [] →
      (searchFull combos e lex spec allCaps).2.1 = e) ∧
    ((searchFull combos e lex spec allCaps).1 ≠ [] →
      ∃ ld', (searchFull combos e lex spec allCaps).2.1 = e.updateLex lex ld' ∧
        ld'.graph = ld.graph ∧ ld'.db = ld.db ∧
        ld'.numAnagramsMap = ld.numAnagramsMap ∧ ld'.stems = ld.stems ∧
        ld'.stemAlphagrams = ld.stemAlphagrams ∧
        ld'.wordCache =
          ((table.filter fun row =>
              decide (row.word ∈ (searchFull combos e lex spec allCaps).1)).foldl
            (fun c row => assocInsert c row.word (rowInfo row.word row)) []) ∧
        ∀ w, (assocLookup ld'.wordCache w).isSome = true ↔
          (w ∈ (searchFull combos e lex spec allCaps).1 ∧ ∃ row ∈ table, row.word = w)) := by
  have hclear : clearCache e lex = e.updateLex lex { ld with wordCache := [] } := by
    unfold clearCache
    rw [h]
  have hmain :
      ∀ res : List Word, res.isEmpty = false →
        addToCache (clearCache e lex) lex res =
          e.updateLex lex
            { ld with
              wordCache :=
                ((table.filter fun row => decide (row.word ∈ res)).foldl
                  (fun c row => assocInsert c row.word (rowInfo row.word row)) []) } := by
    intro res hres
    rw [hclear]
    unfold addToCache
    rw [lookup_updateLex]
    dsimp only
    rw [if_neg (by simp [hres])]
    rw [hdb]
    dsimp only
    rw [updateLex_updateLex]
  rcases hout : searchFull combos e lex spec allCaps with ⟨res, st, flag⟩
  dsimp only
  unfold searchFull at hout
  rw [h] at hout
  dsimp only at hout
  split at hout
  · next hemp =>
    injection hout with h1 h23
    injection h23 with h2 h3
    rw [h1] at hemp
    subst h2
    exact ⟨fun _ => rfl, fun hne => absurd (List.isEmpty_iff.mp hemp) hne⟩
  · next hemp =>
    injection hout with h1 h23
    injection h23 with h2 h3
    rw [h1] at hemp h2
    subst h2
    refine ⟨fun hn => absurd (by simp [hn]) hemp, fun _ => ?_⟩
    rw [hmain res (by simpa using hemp)]
    refine ⟨_, rfl, rfl, rfl, rfl, rfl, rfl, rfl, ?_⟩
    intro w
    rw [assocLookup_foldl_isSome]
    simp only [assocLookup, Option.isSome_none, Bool.false_eq_true, or_false]
    constructor
    · rintro ⟨r, hr, hrw⟩
      have hmf := List.mem_filter.mp hr
      exact ⟨by rw [← hrw]; simpa using hmf.2, r, hmf.1, hrw⟩
    · rintro ⟨hwmem, r, hr, hrw⟩
      exact ⟨r, List.mem_filter.mpr ⟨hr, by simpa [hrw] using hwmem⟩, hrw⟩

/-- C9 witness: the statement at a concrete engine whose graph search
yields CAT and whose table holds the CAT row; the search result is
non-empty, so the cache is rebuilt. -/
theorem c9_search_cache_refresh_witness :
    ((searchFull (fun _ => 0)
        { lexiconData := [(3, { graph := { searchFn := fun _ => [[67, 65, 84]] },
                                db := some [{ word := [67, 65, 84] }] })] } 3 {} false).1 = [] →
      (searchFull (fun _ => 0)
        { lexiconData := [(3, { graph := { searchFn := fun _ => [[67, 65, 84]] },
                                db := some [{ word := [67, 65, 84] }] })] } 3 {} false).2.1 =
        { lexiconData := [(3, { graph := { searchFn := fun _ => [[67, 65, 84]] },
                                db := some [{ word := [67, 65, 84] }] })] }) ∧
    ((searchFull (fun _ => 0)
        { lexiconData := [(3, { graph := { searchFn := fun _ => [[67, 65, 84]] },
                                db := some [{ word := [67, 65, 84] }] })] } 3 {} false).1 ≠ [] →
      ∃ ld', (searchFull (fun _ => 0)
          { lexiconData := [(3, { graph := { searchFn := fun _ => [[67, 65, 84]] },
                                  db := some [{ word := [67, 65, 84] }] })] } 3 {} false).2.1 =
          WordEngine.updateLex
            { lexiconData := [(3, { graph := { searchFn := fun _ => [[67, 65, 84]] },
                                    db := some [{ word := [67, 65, 84] }] })] } 3 ld' ∧
        ld'.graph = ({ graph := { searchFn := fun _ => [[67, 65, 84]] },
                       db := some [{ word := [67, 65, 84] }] } : LexiconData).graph ∧
        ld'.db = ({ graph := { searchFn := fun _ => [[67, 65, 84]] },
                    db := some [{ word := [67, 65, 84] }] } : LexiconData).db ∧
        ld'.numAnagramsMap = ({ graph := { searchFn := fun _ => [[67, 65, 84]] },
                                db := some [{ word := [67, 65, 84] }] } : LexiconData).numAnagramsMap ∧
        ld'.stems = ({ graph := { searchFn := fun _ => [[67, 65, 84]] },
                       db := some [{ word := [67, 65, 84] }] } : LexiconData).stems ∧
        ld'.stemAlphagrams = ({ graph := { searchFn := fun _ => [[67, 65, 84]] },
                                db := some [{ word := [67, 65, 84] }] } : LexiconData).stemAlphagrams ∧
        ld'.wordCache =
          ((([{ word := [67, 65, 84] }] : List DbRow).filter fun row =>
              decide (row.word ∈ (searchFull (fun _ => 0)
                { lexiconData := [(3, { graph := { searchFn := fun _ => [[67, 65, 84]] },
                                        db := some [{ word := [67, 65, 84] }] })] } 3 {} false).1)).foldl
            (fun c row => assocInsert c row.word (rowInfo row.word row)) []) ∧
        ∀ w, (assocLookup ld'.wordCache w).isSome = true ↔
          (w ∈ (searchFull (fun _ => 0)
              { lexiconData := [(3, { graph := { searchFn := fun _ => [[67, 65, 84]] },
                                      db := some [{ word := [67, 65, 84] }] })] } 3 {} false).1 ∧
           ∃ row ∈ ([{ word := [67, 65, 84] }] : List DbRow), row.word = w)) :=
  c9_search_cache_refresh (fun _ => 0)
    { lexiconData := [(3, { graph := { searchFn := fun _ => [[67, 65, 84]] },
                            db := some [{ word := [67, 65, 84] }] })] } 3
    { graph := { searchFn := fun _ => [[67, 65, 84]] }, db := some [{ word := [67, 65, 84] }] }
    [{ word := [67, 65, 84] }] {} false rfl rfl

/-- The empty lexicon data satisfies the text-import invariant. -/
theorem textInvariant_empty : textInvariant {} := by
  constructor
  · exact List.nodup_nil
  · intro alpha
    rfl

/-- Processing one import line preserves the text-import invariant: the
anagram count is bumped exactly when the word is new to the graph. -/
theorem textInvariant_importLine (ld : LexiconData) (line : Word)
    (h : textInvariant ld) : textInvariant (importLine ld line) := by
  unfold importLine
  cases htok : tokenize line with
  | nil => exact h
  | cons t rest =>
    dsimp only
    by_cases hhash : t.headD 0 = 35
    · rw [if_pos hhash]; exact h
    · rw [if_neg hhash]
      by_cases hcont : containsWord ld.graph (toUpperW t)
      · rw [if_pos hcont]
        unfold addWord
        rw [if_pos hcont]
        exact h
      · rw [if_neg hcont]
        unfold addWord
        dsimp only
        rw [if_neg (by simpa [containsWord] using hcont)]
        have hnotmem : toUpperW t ∉ ld.graph.words := by
          simpa [containsWord] using hcont
        constructor
        · dsimp only
          rw [List.nodup_append]
          exact ⟨h.1, List.nodup_singleton _,
            fun a ha hb => hnotmem (by rwa [List.mem_singleton.mp hb] at ha)⟩
        · intro alpha
          dsimp only [bumpAnagram]
          rw [List.filter_append, List.length_append, h.2 alpha]
          by_cases ha : alpha = getAlphagram (toUpperW t)
          · rw [if_pos ha]
            simp [List.filter, ha.symm]
          · rw [if_neg ha]
            have : getAlphagram (toUpperW t) = alpha ↔ False :=
              iff_false_intro (fun hx => ha hx.symm)
            simp [List.filter, this]

/-- Folding import lines preserves the text-import invariant. -/
theorem textInvariant_foldl (lines : List Word) :
    ∀ ld, textInvariant ld → textInvariant (lines.foldl importLine ld) := by
  induction lines with
  | nil => intro ld h; exact h
  | cons l rest ih =>
    intro ld h
    rw [List.foldl_cons]
    exact ih _ (textInvariant_importLine ld l h)

/-- C5: starting from an engine where the lexicon is unregistered, after
any sequence of text-file imports the lexicon's graph holds each imported
word once, and the per-alphagram anagram count equals the number of
distinct imported words with that alphagram; a line repeating a word
already in the graph does not change the count. -/
theorem c5_anagram_counts (e : WordEngine) (lex : Nat) (files : List (List Word))
    (h : e.lookup lex = none) :
    ∀ ld', (files.foldl (fun acc f => importTextFile acc lex f) e).lookup lex = some ld' →
      textInvariant ld' := by
  have key : ∀ (fs : List (List Word)) (e0 : WordEngine),
      (e0.lookup lex = none ∨ ∃ ld0, e0.lookup lex = some ld0 ∧ textInvariant ld0) →
      ∀ ld', (fs.foldl (fun acc f => importTextFile acc lex f) e0).lookup lex = some ld' →
        textInvariant ld' := by
    intro fs
    induction fs with
    | nil =>
      intro e0 hinv ld' hld'
      rcases hinv with hnone | ⟨ld0, hsome, hi⟩
      · rw [List.foldl_nil] at hld'
        rw [hnone] at hld'
        cases hld'
      · rw [List.foldl_nil] at hld'
        rw [hsome] at hld'
        cases hld'
        exact hi
    | cons f rest ih =>
      intro e0 hinv ld' hld'
      rw [List.foldl_cons] at hld'
      refine ih (importTextFile e0 lex f) ?_ ld' hld'
      refine Or.inr ⟨(f.foldl importLine ((e0.lookup lex).getD {})), ?_, ?_⟩
      · unfold importTextFile
        exact lookup_updateLex _ _ _
      · refine textInvariant_foldl f _ ?_
        rcases hinv with hnone | ⟨ld0, hsome, hi⟩
        · rw [hnone]; exact textInvariant_empty
        · rw [hsome]; exact hi
  exact key files e (Or.inl h)

/-- C5 witness: importing the lines CAT, DOG, CAT into a fresh lexicon
yields a graph holding CAT and DOG once each, with the anagram counts of
the invariant. -/
theorem c5_anagram_counts_witness :
    textInvariant
      { graph := { words := [[67, 65, 84], [68, 79, 71]] },
        numAnagramsMap := bumpAnagram (bumpAnagram (fun _ => 0) [65, 67, 84]) [68, 71, 79] } :=
  c5_anagram_counts {} 0 [[[67, 65, 84], [68, 79, 71], [67, 65, 84]]] rfl
    { graph := { words := [[67, 65, 84], [68, 79, 71]] },
      numAnagramsMap := bumpAnagram (bumpAnagram (fun _ => 0) [65, 67, 84]) [68, 71, 79] } rfl

/-- Upper-case letters are fixed by toUpperCU. -/
theorem toUpperCU_upper {u : Nat} (h : isUpperAlpha u) : toUpperCU u = u := by
  unfold toUpperCU
  rcases h with ⟨h1, h2⟩
  rw [if_neg]
  omega

/-- The lone any-run wildcard matches every word. -/
theorem likeMatch_wild : ∀ w : Word, likeMatch [37] w = true := by
  intro w
  induction w with
  | nil => rfl
  | cons d w' ih => simp [likeMatch, likeMatchStar, likeMatch] at ih ⊢; exact ih

/-- The pattern of an IncludeLetters fragment grows one letter at a
time. -/
theorem includeLikePattern_succ (c : Nat) (n : Nat) :
    includeLikePattern c (n + 1) = 37 :: c :: includeLikePattern c n := by
  simp [includeLikePattern, List.replicate_succ]

/-- The LIKE pattern generated for one letter matches a word exactly when
the word holds at least that many occurrences of the letter (both the
letter and the word restricted to upper-case letters, as the canonical
store is). -/
theorem likeMatch_includePattern (c : Nat) (hc : isUpperAlpha c) :
    ∀ (n : Nat) (w : Word), (∀ u ∈ w, isUpperAlpha u) →
      likeMatch (includeLikePattern c n) w = decide (n ≤ w.count c) := by
  have hc37 : ¬ c = 37 := by rcases hc with ⟨h1, h2⟩; omega
  have hc95 : ¬ c = 95 := by rcases hc with ⟨h1, h2⟩; omega
  intro n
  induction n with
  | zero =>
    intro w hw
    simp [includeLikePattern, likeMatch_wild]
  | succ n ih =>
    intro w
    induction w with
    | nil =>
      intro hw
      rw [includeLikePattern_succ]
      simp [likeMatch, likeMatchStar, hc37]
    | cons d w' ihw =>
      intro hw
      have hd : isUpperAlpha d := hw d (List.mem_cons_self d w')
      have hw' : ∀ u ∈ w', isUpperAlpha u := fun u hu => hw u (List.mem_cons_of_mem d hu)
      rw [includeLikePattern_succ]
      have h37 : ∀ ps ww : Word, likeMatch (37 :: ps) ww = likeMatchStar (likeMatch ps) ww := by
        intro ps ww
        rw [likeMatch.eq_def]
        dsimp only
        rw [if_pos rfl]
      have hstep :
          likeMatch (37 :: c :: includeLikePattern c n) (d :: w') =
            (likeMatch (c :: includeLikePattern c n) (d :: w') ||
             likeMatch (37 :: c :: includeLikePattern c n) w') := by
        rw [h37, h37, likeMatchStar]
      rw [hstep]
      have hfirst :
          likeMatch (c :: includeLikePattern c n) (d :: w') =
            (decide (c = d) && likeMatch (includeLikePattern c n) w') := by
        rw [likeMatch]
        rw [if_neg hc37]
        simp only [if_neg hc95]
        rw [toUpperCU_upper hc, toUpperCU_upper hd]
      rw [hfirst, ih w' hw']
      rw [← includeLikePattern_succ, ihw hw']
      by_cases hcd : c = d
      · subst hcd
        rw [List.count_cons_self]
        by_cases hn : n ≤ w'.count c
        · have hn1 : n + 1 ≤ w'.count c + 1 := by omega
          simp [hn, hn1]
        · have hn1 : ¬ n + 1 ≤ w'.count c + 1 := by omega
          have hn2 : ¬ n + 1 ≤ w'.count c := by omega
          simp [hn, hn1, hn2]
      · rw [List.count_cons_of_ne hcd]
        simp [hcd]

/-- Membership is preserved by ascending insertion. -/
theorem mem_insNat (a b : Nat) (l : List Nat) : b ∈ insNat a l ↔ b = a ∨ b ∈ l := by
  induction l with
  | nil => simp [insNat]
  | cons x xs ih =>
    by_cases hax : a ≤ x
    · simp [insNat, hax, List.mem_cons]
    · simp only [insNat, hax, if_false, List.mem_cons, ih]
      tauto

/-- Membership is preserved by sorting. -/
theorem mem_sortNat (b : Nat) (l : List Nat) : b ∈ sortNat l ↔ b ∈ l := by
  induction l with
  | nil => simp [sortNat]
  | cons x xs ih =>
    show b ∈ insNat x (sortNat xs) ↔ _
    rw [mem_insNat]
    simp [List.mem_cons, ih]

/-- C2: in the database phase, a non-negated IncludeLetters condition
with query string s requires, for each distinct letter of s, at least as
many occurrences in the word as the letter's multiplicity in s, while a
negated IncludeLetters condition requires zero occurrences of each
distinct letter of s (absence, not fewer-than-multiplicity). -/
theorem c2_include_letters (s : Word) (row : DbRow) (hs : ∀ u ∈ s, isUpperAlpha u)
    (hw : ∀ u ∈ row.word, isUpperAlpha u) (_hne : s ≠ []) :
    (condFilter { type := ConditionType.IncludeLetters, stringValue := s } row = true ↔
      ∀ c ∈ s, s.count c ≤ row.word.count c) ∧
    (condFilter { type := ConditionType.IncludeLetters, stringValue := s,
                  negated := true } row = true ↔
      ∀ c ∈ s, row.word.count c = 0) := by
  have hmem : ∀ c : Nat, c ∈ sortNat s.dedup ↔ c ∈ s := by
    intro c
    rw [mem_sortNat, List.mem_dedup]
  have hfilt_pos : includeLettersFilter s false row.word =
      ((letterCounts s).all fun p => likeMatch (includeLikePattern p.1 p.2) row.word) := by
    simp [includeLettersFilter]
  have hfilt_neg : includeLettersFilter s true row.word =
      ((letterCounts s).all fun p => !likeMatch (includeLikePattern p.1 1) row.word) := by
    simp [includeLettersFilter]
  constructor
  · show includeLettersFilter s false row.word = true ↔ _
    rw [hfilt_pos, List.all_eq_true]
    unfold letterCounts
    constructor
    · intro hall c hcs
      have hcall := hall (c, s.count c)
        (List.mem_map.mpr ⟨c, (hmem c).mpr hcs, rfl⟩)
      dsimp only at hcall
      rw [likeMatch_includePattern c (hs c hcs) (s.count c) row.word hw] at hcall
      exact of_decide_eq_true hcall
    · intro hcount p hp
      obtain ⟨c, hcmem, rfl⟩ := List.mem_map.mp hp
      have hcs : c ∈ s := (hmem c).mp hcmem
      dsimp only
      rw [likeMatch_includePattern c (hs c hcs) (s.count c) row.word hw]
      exact decide_eq_true (hcount c hcs)
  · show includeLettersFilter s true row.word = true ↔ _
    rw [hfilt_neg, List.all_eq_true]
    unfold letterCounts
    constructor
    · intro hall c hcs
      have hcall := hall (c, s.count c)
        (List.mem_map.mpr ⟨c, (hmem c).mpr hcs, rfl⟩)
      dsimp only at hcall
      rw [likeMatch_includePattern c (hs c hcs) 1 row.word hw] at hcall
      have h1 : ¬ (1 ≤ row.word.count c) := by
        intro hge
        rw [decide_eq_true hge] at hcall
        simp at hcall
      omega
    · intro hcount p hp
      obtain ⟨c, hcmem, rfl⟩ := List.mem_map.mp hp
      have hcs : c ∈ s := (hmem c).mp hcmem
      dsimp only
      rw [likeMatch_includePattern c (hs c hcs) 1 row.word hw]
      have hlt : ¬ 1 ≤ row.word.count c := by
        rw [hcount c hcs]
        omega
      simp [hlt]

/-- C2 witness: the statement at the query string E and the row BED, with
the concrete evaluations showing that negated IncludeLetters E excludes
both BED and SEA while keeping DOG. -/
theorem c2_include_letters_witness :
    ((condFilter { type := ConditionType.IncludeLetters, stringValue := [69],
                   negated := true } { word := [66, 69, 68] } = true ↔
       ∀ c ∈ ([69] : Word), ([66, 69, 68] : Word).count c = 0) ∧
     condFilter { type := ConditionType.IncludeLetters, stringValue := [69],
                  negated := true } { word := [66, 69, 68] } = false ∧
     condFilter { type := ConditionType.IncludeLetters, stringValue := [69],
                  negated := true } { word := [83, 69, 65] } = false ∧
     condFilter { type := ConditionType.IncludeLetters, stringValue := [69],
                  negated := true } { word := [68, 79, 71] } = true) :=
  ⟨(c2_include_letters [69] { word := [66, 69, 68] } (by decide) (by decide) (by decide)).2,
   by decide, by decide, by decide⟩

/-- C6 counterexample: with the canonical store holding CAT, an
In-word-list condition carrying the caller casing cat (which upper-cases
to CAT) matches nothing: the condition's words are compared verbatim and
case-sensitively, with no normalization and no remapping of results, so
the claim's case-normalization of the In-word-list condition fails; the
canonical casing CAT does match. -/
theorem c6_counterexample :
    toUpperW [99, 97, 116] = [67, 65, 84] ∧
    databaseSearch { lexiconData := [(1, { db := some [{ word := [67, 65, 84] }] })] } 1
      { conditions := [{ type := ConditionType.InWordList, stringValue := [99, 97, 116] }] }
      none = [] ∧
    databaseSearch { lexiconData := [(1, { db := some [{ word := [67, 65, 84] }] })] } 1
      { conditions := [{ type := ConditionType.InWordList, stringValue := [67, 65, 84] }] }
      none = [[67, 65, 84]] := by
  refine ⟨by decide, by decide, by decide⟩

/-- The upper-to-original map built from a caller word list looks up to
the last caller word with the given upper-cased form. -/
theorem assocLookup_casingMap (ws : List Word) :
    ∀ (m0 : List (Word × Word)) (u : Word),
      assocLookup (ws.foldl (fun m w => assocInsert m (toUpperW w) w) m0) u =
        (match (ws.filter fun v => toUpperW v = u).getLast? with
         | some v => some v
         | none => assocLookup m0 u) := by
  induction ws with
  | nil => intro m0 u; simp
  | cons w rest ih =>
    intro m0 u
    rw [List.foldl_cons, ih]
    by_cases hwu : toUpperW w = u
    · rw [List.filter_cons_of_pos (by simpa using hwu)]
      cases hfl : (rest.filter fun v => toUpperW v = u) with
      | nil =>
        simp only [List.getLast?_nil, List.getLast?_singleton]
        rw [assocLookup_assocInsert, if_pos hwu]
      | cons f fs =>
        rw [List.getLast?_cons_cons]
        rw [List.getLast?_eq_getLast (f :: fs) (by simp)]
    · rw [List.filter_cons_of_neg (by simpa using hwu)]
      cases hfl : (rest.filter fun v => toUpperW v = u) with
      | nil =>
        simp only [List.getLast?_nil]
        rw [assocLookup_assocInsert, if_neg hwu]
      | cons f fs => rfl

/-- An insert-or-replace is never empty. -/
theorem assocInsert_ne_nil {α β : Type} [DecidableEq α] (m : List (α × β)) (k : α) (v : β) :
    assocInsert m k v ≠ [] := by
  cases m with
  | nil => simp [assocInsert]
  | cons p rest =>
    obtain ⟨k0, v0⟩ := p
    unfold assocInsert
    split <;> simp

/-- Folding inserts over a word list keeps a non-empty map non-empty, and
produces a non-empty map from a non-empty list. -/
theorem casingMap_ne_nil (ws : List Word) (hws : ws ≠ []) :
    ws.foldl (fun m w => assocInsert m (toUpperW w) w) [] ≠ [] := by
  have key : ∀ (l : List Word) (m : List (Word × Word)), m ≠ [] →
      l.foldl (fun m w => assocInsert m (toUpperW w) w) m ≠ [] := by
    intro l
    induction l with
    | nil => intro m hm; simpa using hm
    | cons x xs ih =>
      intro m _
      rw [List.foldl_cons]
      exact ih _ (assocInsert_ne_nil m (toUpperW x) x)
  cases ws with
  | nil => exact absurd rfl hws
  | cons x xs =>
    rw [List.foldl_cons]
    exact key xs _ (assocInsert_ne_nil [] (toUpperW x) x)

/-- C6 amended: only the explicit restriction word list passed from the
graph phase is case-normalized: rows are kept when their (canonical-case)
word equals the upper-cased form of some caller word, and each kept row's
word is remapped to the last caller casing that upper-cases to it.  (The
In-word-list condition, by contrast, is matched verbatim, as the
counterexample shows.) -/
theorem c6_amended_restriction_remap (e : WordEngine) (lex : Nat) (ld : LexiconData)
    (table : List DbRow) (spec : SearchSpec) (ws : List Word)
    (h : e.lookup lex = some ld) (hdb : ld.db = some table) (hws : ws ≠ []) :
    databaseSearch e lex spec (some ws) =
      ((table.filter fun row => dbRowPass spec row && decide (row.word ∈ ws.map toUpperW)).map
        fun row => (lastCasing ws row.word).getD row.word) := by
  unfold databaseSearch
  rw [h]
  dsimp only
  rw [hdb]
  dsimp only
  refine List.map_congr_left ?_
  intro row _
  rw [if_neg (by simpa using casingMap_ne_nil ws hws)]
  rw [assocLookup_casingMap]
  simp only [assocLookup]
  unfold lastCasing
  cases hfl : (ws.filter fun v => toUpperW v = row.word).getLast? with
  | none => rfl
  | some v => rfl

/-- C6 amended witness: the caller supplies the casing cat; the CAT row
is kept and returned in the caller's casing. -/
theorem c6_amended_restriction_remap_witness :
    databaseSearch { lexiconData := [(1, { db := some [{ word := [67, 65, 84] }] })] } 1
      {} (some [[99, 97, 116]]) =
      ((([{ word := [67, 65, 84] }] : List DbRow).filter fun row =>
          dbRowPass {} row && decide (row.word ∈ ([[99, 97, 116]] : List Word).map toUpperW)).map
        fun row => (lastCasing [[99, 97, 116]] row.word).getD row.word) :=
  c6_amended_restriction_remap { lexiconData := [(1, { db := some [{ word := [67, 65, 84] }] })] }
    1 { db := some [{ word := [67, 65, 84] }] } [{ word := [67, 65, 84] }] {} [[99, 97, 116]]
    rfl rfl (by decide)

/-- Ascending insertion preserves length. -/
theorem length_insNat (a : Nat) (l : List Nat) : (insNat a l).length = l.length + 1 := by
  induction l with
  | nil => rfl
  | cons x xs ih =>
    unfold insNat
    by_cases hax : a ≤ x
    · rw [if_pos hax]; rfl
    · rw [if_neg hax]
      simp [ih]

/-- Sorting preserves length. -/
theorem length_sortNat (l : List Nat) : (sortNat l).length = l.length := by
  induction l with
  | nil => rfl
  | cons x xs ih =>
    show (insNat x (sortNat xs)).length = _
    rw [length_insNat, ih, List.length_cons]

/-- Equation of the greedy scan at an exhausted stem alphagram. -/
theorem toeMissing_sa_nil (ag : Word) (m : Nat) : toeMissing ag [] m = m := by
  cases ag <;> rfl

/-- Equation of the greedy scan at an exhausted word alphagram. -/
theorem toeMissing_nil_cons (s : Nat) (ss : Word) (m : Nat) :
    toeMissing [] (s :: ss) m = m := rfl

/-- Equation of the greedy scan with both lists non-empty. -/
theorem toeMissing_cons_cons (a s : Nat) (as ss : Word) (m : Nat) :
    toeMissing (a :: as) (s :: ss) m =
      (if a = s then toeMissing as ss m
       else if m + 1 > 2 then m + 1 else toeMissing as (s :: ss) (m + 1)) := rfl

/-- When the stem alphagram is a subsequence of the word's alphagram, the
greedy scan completes within the length difference. -/
theorem toeMissing_of_sublist :
    ∀ (ag sa : Word) (m : Nat), List.Sublist sa ag →
      toeMissing ag sa m + sa.length ≤ m + ag.length := by
  intro ag
  induction ag with
  | nil =>
    intro sa m hsub
    rw [List.sublist_nil.mp hsub, toeMissing_sa_nil]
  | cons a as ih =>
    intro sa m hsub
    cases sa with
    | nil =>
      rw [toeMissing_sa_nil]
      simp only [List.length_nil, List.length_cons]
      omega
    | cons s ss =>
      by_cases has : a = s
      · subst has
        have hss : List.Sublist ss as := by
          cases hsub with
          | cons _ h => exact (List.sublist_cons_self a ss).trans h
          | cons₂ _ h => exact h
        have hrec := ih ss m hss
        rw [toeMissing_cons_cons, if_pos rfl]
        simp only [List.length_cons]
        omega
      · have htail : List.Sublist (s :: ss) as := by
          cases hsub with
          | cons _ h => exact h
          | cons₂ _ h => exact absurd rfl has
        have hlen : (s :: ss).length ≤ as.length := htail.length_le
        rw [toeMissing_cons_cons, if_neg has]
        by_cases hm : m + 1 > 2
        · rw [if_pos hm]
          simp only [List.length_cons] at hlen ⊢
          omega
        · rw [if_neg hm]
          have hrec := ih (s :: ss) (m + 1) htail
          simp only [List.length_cons] at hrec ⊢
          omega

/-- When the greedy scan stays within budget, either the stem alphagram
is a subsequence of the word's alphagram, or the word's alphagram ran out
first (quantified by the returned count). -/
theorem sublist_of_toeMissing :
    ∀ (ag sa : Word) (m : Nat), toeMissing ag sa m ≤ 2 →
      List.Sublist sa ag ∨ ag.length + m < sa.length + toeMissing ag sa m := by
  intro ag
  induction ag with
  | nil =>
    intro sa m hle
    cases sa with
    | nil => exact Or.inl (List.Sublist.refl [])
    | cons s ss =>
      refine Or.inr ?_
      rw [toeMissing_nil_cons]
      simp only [List.length_nil, List.length_cons]
      omega
  | cons a as ih =>
    intro sa m hle
    cases sa with
    | nil => exact Or.inl (List.nil_sublist _)
    | cons s ss =>
      by_cases has : a = s
      · subst has
        rw [toeMissing_cons_cons, if_pos rfl] at hle ⊢
        rcases ih ss m hle with hsub | hcnt
        · exact Or.inl (hsub.cons₂ a)
        · refine Or.inr ?_
          simp only [List.length_cons]
          omega
      · rw [toeMissing_cons_cons, if_neg has] at hle ⊢
        by_cases hm : m + 1 > 2
        · rw [if_pos hm] at hle
          omega
        · rw [if_neg hm] at hle ⊢
          rcases ih (s :: ss) (m + 1) hle with hsub | hcnt
          · exact Or.inl (hsub.cons a)
          · refine Or.inr ?_
            simp only [List.length_cons] at hcnt ⊢
            omega

/-- C7 counterexample: with the length-6 stem alphagram ABCDEF imported,
the word ABCDEFGH is a Type-One eight under the code (its alphagram with
TWO letters removed is the stem alphagram), while the claim's literal
one-letter-removed test never holds for eights (a 7-letter string is
never in a set of 6-letter stem alphagrams). -/
theorem c7_counterexample :
    isSetMember (fun _ => 0)
      { lexiconData := [(0, { stemAlphagrams := [(6, [[65, 66, 67, 68, 69, 70]])] })] } 0
      [65, 66, 67, 68, 69, 70, 71, 72] SearchSet.SetTypeOneEights = true ∧
    claimTypeOneEight { stemAlphagrams := [(6, [[65, 66, 67, 68, 69, 70]])] }
      [65, 66, 67, 68, 69, 70, 71, 72] = false := by
  refine ⟨by decide, by decide⟩

/-- C7 amended: with stems of length 6 imported, a 7-letter word is a
Type-One seven exactly when its alphagram with one letter removed (at
some position) lies in the length-6 stem-alphagram set, and an 8-letter
word is a Type-One eight exactly when some length-6 stem alphagram is a
subsequence of its alphagram (equivalently, the alphagram with two
letters removed at some positions is a stem alphagram). -/
theorem c7_amended_type_one (combos : Word → Nat) (e : WordEngine) (lex : Nat)
    (ld : LexiconData) (S6 : List Word) (h : e.lookup lex = some ld)
    (hS : assocLookup ld.stemAlphagrams 6 = some S6)
    (hlen : ∀ s ∈ S6, s.length = 6) (w : Word) :
    (w.length = 7 → (isSetMember combos e lex w SearchSet.SetTypeOneSevens = true ↔
      ∃ i < 7, (getAlphagram w).take i ++ (getAlphagram w).drop (i + 1) ∈ S6)) ∧
    (w.length = 8 → (isSetMember combos e lex w SearchSet.SetTypeOneEights = true ↔
      ∃ s ∈ S6, List.Sublist s (getAlphagram w))) := by
  have hsm7 : isSetMember combos e lex w SearchSet.SetTypeOneSevens =
      typeOneSevenMember ld w := by
    unfold isSetMember
    rw [h]
  have hsm8 : isSetMember combos e lex w SearchSet.SetTypeOneEights =
      typeOneEightMember ld w := by
    unfold isSetMember
    rw [h]
  have haglen : (getAlphagram w).length = w.length := length_sortNat w
  constructor
  · intro h7
    rw [hsm7]
    unfold typeOneSevenMember
    rw [if_neg (by simp [h7]), h7]
    rw [hS]
    dsimp only
    rw [List.any_eq_true]
    constructor
    · rintro ⟨i, hi, hmem⟩
      rw [List.mem_range, haglen, h7] at hi
      exact ⟨i, hi, of_decide_eq_true hmem⟩
    · rintro ⟨i, hi, hmem⟩
      exact ⟨i, List.mem_range.mpr (by rw [haglen, h7]; exact hi), decide_eq_true hmem⟩
  · intro h8
    rw [hsm8]
    unfold typeOneEightMember
    rw [if_neg (by simp [h8]), h8]
    rw [hS]
    dsimp only
    rw [List.any_eq_true]
    constructor
    · rintro ⟨sa, hsa, hdec⟩
      have htoe : toeMissing (getAlphagram w) sa 0 ≤ 2 := of_decide_eq_true hdec
      rcases sublist_of_toeMissing (getAlphagram w) sa 0 htoe with hsub | hcnt
      · exact ⟨sa, hsa, hsub⟩
      · rw [haglen, h8, hlen sa hsa] at hcnt
        omega
    · rintro ⟨sa, hsa, hsub⟩
      refine ⟨sa, hsa, decide_eq_true ?_⟩
      have := toeMissing_of_sublist (getAlphagram w) sa 0 hsub
      rw [haglen, h8, hlen sa hsa] at this
      omega

/-- C7 amended witness: the statement at the concrete stem set containing
ABCDEF and the word ABCDEFGH; its eights half yields membership via the
subsequence ABCDEF of ABCDEFGH. -/
theorem c7_amended_type_one_witness :
    isSetMember (fun _ => 0)
      { lexiconData := [(0, { stemAlphagrams := [(6, [[65, 66, 67, 68, 69, 70]])] })] } 0
      [65, 66, 67, 68, 69, 70, 71, 72] SearchSet.SetTypeOneEights = true :=
  ((c7_amended_type_one (fun _ => 0)
      { lexiconData := [(0, { stemAlphagrams := [(6, [[65, 66, 67, 68, 69, 70]])] })] } 0
      { stemAlphagrams := [(6, [[65, 66, 67, 68, 69, 70]])] } [[65, 66, 67, 68, 69, 70]]
      rfl rfl (by decide) [65, 66, 67, 68, 69, 70, 71, 72]).2 rfl).mpr
    ⟨[65, 66, 67, 68, 69, 70], by decide, by decide⟩

/-- The padded radix always has nine digits. -/
theorem pad9_length (n : Nat) : (pad9 n).length = 9 := by
  simp [pad9]

/-- The first nine characters of a non-legacy radix are the padded
combination-count value of the word. -/
theorem take9_probRadix (combos : Word → Nat) (w : Word) :
    (probRadix combos false w).take 9 =
      pad9 (10 ^ 9 - 1 - combos (toUpperW w)) := by
  unfold probRadix
  dsimp only
  rw [List.append_assoc]
  rw [List.take_left' (pad9_length _)]

/-- The alphagram-then-word suffix of a radix determines the word. -/
theorem alphagram_append_inj (x y : Word)
    (hxy : getAlphagram x ++ x = getAlphagram y ++ y) : x = y := by
  have hlenx : (getAlphagram x).length = x.length := length_sortNat x
  have hleny : (getAlphagram y).length = y.length := length_sortNat y
  have htot := congrArg List.length hxy
  simp only [List.length_append, hlenx, hleny] at htot
  have hlen : x.length = y.length := by omega
  exact (List.append_inj hxy (by rw [hlenx, hleny, hlen])).2

/-- Radixes of words with the same combination count are injective in the
upper-cased word. -/
theorem probRadix_inj (combos : Word → Nat) (x y : Word)
    (hc : combos (toUpperW x) = combos (toUpperW y))
    (hxy : probRadix combos false x = probRadix combos false y) :
    toUpperW x = toUpperW y := by
  unfold probRadix at hxy
  dsimp only at hxy
  rw [hc] at hxy
  rw [List.append_assoc, List.append_assoc] at hxy
  have hsuffix := List.append_cancel_left hxy
  exact alphagram_append_inj (toUpperW x) (toUpperW y) hsuffix

/-- Inserting under a fresh key permutes to consing the entry. -/
theorem probMapInsert_perm (k v : Word) :
    ∀ m : List (Word × Word), (∀ p ∈ m, p.1 ≠ k) →
      List.Perm (probMapInsert k v m) ((k, v) :: m) := by
  intro m
  induction m with
  | nil => intro _; exact List.Perm.refl _
  | cons p rest ih =>
    intro hk
    obtain ⟨k0, v0⟩ := p
    have hk0 : k0 ≠ k := hk (k0, v0) (List.mem_cons_self _ _)
    unfold probMapInsert
    rw [if_neg (fun hx => hk0 hx.symm)]
    by_cases hlt : lexLt k k0
    · rw [if_pos hlt]
    · rw [if_neg hlt]
      refine List.Perm.trans (List.Perm.cons (k0, v0)
        (ih (fun q hq => hk q (List.mem_cons_of_mem _ hq)))) ?_
      exact List.Perm.swap (k, v) (k0, v0) rest

/-- Entries after an insert come from the insert or the old map. -/
theorem probMapInsert_subset (k v : Word) :
    ∀ m : List (Word × Word), ∀ p ∈ probMapInsert k v m, p = (k, v) ∨ p ∈ m := by
  intro m
  induction m with
  | nil =>
    intro p hp
    unfold probMapInsert at hp
    simpa using hp
  | cons q rest ih =>
    intro p hp
    obtain ⟨k0, v0⟩ := q
    unfold probMapInsert at hp
    by_cases hke : k = k0
    · rw [if_pos hke] at hp
      rcases List.mem_cons.mp hp with hh | ht
      · exact Or.inl hh
      · exact Or.inr (List.mem_cons_of_mem _ ht)
    · rw [if_neg hke] at hp
      by_cases hlt : lexLt k k0
      · rw [if_pos hlt] at hp
        rcases List.mem_cons.mp hp with hh | ht
        · exact Or.inl hh
        · exact Or.inr ht
      · rw [if_neg hlt] at hp
        rcases List.mem_cons.mp hp with hh | ht
        · exact Or.inr (hh ▸ List.mem_cons_self _ _)
        · rcases ih p ht with hl | hr
          · exact Or.inl hl
          · exact Or.inr (List.mem_cons_of_mem _ hr)

/-- An in-range getD is a member. -/
theorem getD_mem {α : Type} (l : List α) (i : Nat) (d : α) (hi : i < l.length) :
    l.getD i d ∈ l := by
  rw [List.getD_eq_getElem l d hi]
  exact List.getElem_mem hi

/-- With every key carrying the boundary prefix and a zero strict lower
bound, the min-widening loop reaches the start of the list. -/
theorem widenMinLoop_to_zero (keys : List Word) (pfx : Word)
    (hall : ∀ i, i < keys.length → (keys.getD i []).take 9 = pfx) :
    ∀ mn, mn < keys.length → widenMinLoop keys 0 pfx mn = 0 := by
  intro mn
  induction mn with
  | zero => intro _; rfl
  | succ m ih =>
    intro hm
    unfold widenMinLoop
    rw [if_pos ⟨by omega, hall m (by omega)⟩]
    exact ih (by omega)

/-- With every key carrying the boundary prefix and the strict upper
bound at the end of the list, the max-widening loop reaches the end. -/
theorem widenMaxLoop_to_end (keys : List Word) (pfx : Word)
    (hall : ∀ i, i < keys.length → (keys.getD i []).take 9 = pfx)
    (smax : Int) (hsmax : smax = (keys.length : Int) - 1) :
    ∀ (fuel mx : Nat), mx < keys.length → keys.length ≤ mx + fuel + 1 →
      widenMaxLoop keys smax pfx mx fuel = keys.length - 1 := by
  subst hsmax
  intro fuel
  induction fuel with
  | zero =>
    intro mx hmx hfuel
    unfold widenMaxLoop
    omega
  | succ f ih =>
    intro mx hmx hfuel
    by_cases hend : mx + 1 < keys.length
    · unfold widenMaxLoop
      rw [if_pos ⟨by omega, by omega, hall (mx + 1) hend⟩]
      exact ih (mx + 1) hend (by omega)
    · unfold widenMaxLoop
      rw [if_neg (by omega)]
      omega

/-- C1: for any three distinct candidate words with equal combination
count, a lax probability window of size one landing inside the group (the
range [2,2] over three candidates) is widened outward over the tie run,
and the post-condition filter returns the entire tie group, never a
proper subset. -/
theorem c1_probability_tie_group (combos : Word → Nat) (e : WordEngine) (lex : Nat)
    (ld : LexiconData) (h : e.lookup lex = some ld) (a b c : Word) (conj : Bool)
    (hab : toUpperW a ≠ toUpperW b) (hac : toUpperW a ≠ toUpperW c)
    (hbc : toUpperW b ≠ toUpperW c) (n : Nat) (_hn : n < 10 ^ 9)
    (hca : combos (toUpperW a) = n) (hcb : combos (toUpperW b) = n)
    (hcc : combos (toUpperW c) = n) :
    List.Perm
      (applyPostConditions combos e lex
        { conjunction := conj,
          conditions := [{ type := ConditionType.LimitByProbabilityOrder,
                           boolValue := true, minValue := 2, maxValue := 2 }] }
        [a, b, c])
      [a, b, c] := by
  have hmatch : ∀ w, matchesPostConditions combos e lex w
      [{ type := ConditionType.LimitByProbabilityOrder, boolValue := true,
         minValue := 2, maxValue := 2 }] = true := by
    intro w
    simp [matchesPostConditions, h, getConditionPhase]
  have hfilter : List.filter (fun w => matchesPostConditions combos e lex w
      [{ type := ConditionType.LimitByProbabilityOrder, boolValue := true,
         minValue := 2, maxValue := 2 }]) [a, b, c] = [a, b, c] :=
    List.filter_eq_self.mpr fun w _ => by rw [hmatch w]
  have hkab : probRadix combos false a ≠ probRadix combos false b := fun heq =>
    hab (probRadix_inj combos a b (by rw [hca, hcb]) heq)
  have hkac : probRadix combos false a ≠ probRadix combos false c := fun heq =>
    hac (probRadix_inj combos a c (by rw [hca, hcc]) heq)
  have hkbc : probRadix combos false b ≠ probRadix combos false c := fun heq =>
    hbc (probRadix_inj combos b c (by rw [hcb, hcc]) heq)
  have hm2 : List.Perm
      (probMapInsert (probRadix combos false b) b [(probRadix combos false a, a)])
      [(probRadix combos false b, b), (probRadix combos false a, a)] := by
    refine probMapInsert_perm _ _ _ ?_
    intro p hp
    rcases List.mem_singleton.mp hp with rfl
    exact fun hx => hkab hx
  have hbuild : buildProbMap combos false [a, b, c] =
      probMapInsert (probRadix combos false c) c
        (probMapInsert (probRadix combos false b) b
          [(probRadix combos false a, a)]) := rfl
  have hperm : List.Perm (buildProbMap combos false [a, b, c])
      [(probRadix combos false c, c), (probRadix combos false b, b),
       (probRadix combos false a, a)] := by
    rw [hbuild]
    refine List.Perm.trans (probMapInsert_perm _ _ _ ?_) (List.Perm.cons _ hm2)
    intro p hp
    rcases probMapInsert_subset _ _ _ p hp with rfl | hmem
    · exact fun hx => hkbc hx
    · rcases List.mem_singleton.mp hmem with rfl
      exact fun hx => hkac hx
  have hkeyslen : (List.map Prod.fst (buildProbMap combos false [a, b, c])).length = 3 := by
    rw [List.length_map, hperm.length_eq]
    rfl
  have hallpfx : ∀ i,
      i < (List.map Prod.fst (buildProbMap combos false [a, b, c])).length →
      ((List.map Prod.fst (buildProbMap combos false [a, b, c])).getD i []).take 9 =
        pad9 (10 ^ 9 - 1 - n) := by
    intro i hi
    have hmem := getD_mem _ i ([] : Word) hi
    rw [List.mem_map] at hmem
    obtain ⟨p, hp, hfst⟩ := hmem
    have hp3 := (hperm.mem_iff).mp hp
    rw [← hfst]
    simp only [List.mem_cons, List.mem_singleton, List.not_mem_nil, or_false] at hp3
    rcases hp3 with rfl | rfl | rfl
    · rw [show ((probRadix combos false c, c) : Word × Word).1 =
        probRadix combos false c from rfl, take9_probRadix, hcc]
    · rw [show ((probRadix combos false b, b) : Word × Word).1 =
        probRadix combos false b from rfl, take9_probRadix, hcb]
    · rw [show ((probRadix combos false a, a) : Word × Word).1 =
        probRadix combos false a from rfl, take9_probRadix, hca]
  have hvalsperm : List.Perm
      (List.map Prod.snd (buildProbMap combos false [a, b, c])) [a, b, c] := by
    refine List.Perm.trans (hperm.map Prod.snd) ?_
    show List.Perm [c, b, a] [a, b, c]
    have : ([a, b, c] : List Word).reverse = [c, b, a] := by simp
    rw [← this]
    exact List.reverse_perm [a, b, c]
  have hvalslen : (List.map Prod.snd (buildProbMap combos false [a, b, c])).length = 3 := by
    rw [List.length_map, hperm.length_eq]
    rfl
  unfold applyPostConditions
  dsimp only
  rw [hfilter]
  rw [show (List.foldl probLimitsStep {}
      [({ type := ConditionType.LimitByProbabilityOrder, boolValue := true,
          minValue := 2, maxValue := 2 } : SearchCondition)]) =
      ({ hasCond := true, legacy := false, rmin := 0, rmax := 999999,
         rminLax := 2, rmaxLax := 2 } : ProbLimits) from rfl]
  dsimp only
  rw [if_pos rfl]
  rw [if_neg (by norm_num)]
  norm_num
  rw [show (Option.map Prod.fst (buildProbMap combos false [a, b, c])[1]?).getD ([] : Word) =
      (List.map Prod.fst (buildProbMap combos false [a, b, c])).getD 1 [] from by
    simp [List.getD_eq_getElem?_getD]]
  rw [hallpfx 1 (by rw [hkeyslen]; omega)]
  rw [show (buildProbMap combos false [a, b, c]).length = 3 from by rw [hperm.length_eq]; rfl]
  rw [widenMinLoop_to_zero _ _ hallpfx 1 (by rw [hkeyslen]; omega)]
  have hmax := widenMaxLoop_to_end
    (List.map Prod.fst (buildProbMap combos false [a, b, c]))
    (pad9 (10 ^ 9 - 1 - n)) hallpfx 2 (by rw [hkeyslen]; norm_num) 3 1
    (by rw [hkeyslen]; omega) (by rw [hkeyslen]; omega)
  rw [hkeyslen] at hmax
  rw [hmax]
  unfold listMid
  rw [if_neg (by norm_num)]
  norm_num
  rw [List.take_of_length_le (by rw [hvalslen]; decide)]
  exact hvalsperm

/-- C1 witness: the tie-group property at the concrete candidates CAT,
ALE, BEE, all with combination count 5, under the lax window [2,2]. -/
theorem c1_probability_tie_group_witness :
    List.Perm
      (applyPostConditions (fun _ => 5) { lexiconData := [(0, {})] } 0
        { conjunction := true,
          conditions := [{ type := ConditionType.LimitByProbabilityOrder,
                           boolValue := true, minValue := 2, maxValue := 2 }] }
        [[67, 65, 84], [65, 76, 69], [66, 69, 69]])
      [[67, 65, 84], [65, 76, 69], [66, 69, 69]] :=
  c1_probability_tie_group (fun _ => 5) { lexiconData := [(0, {})] } 0 {} rfl
    [67, 65, 84] [65, 76, 69] [66, 69, 69] true (by decide) (by decide) (by decide)
    5 (by norm_num) rfl rfl rfl

end Zyzzyva
